import Mathlib

/-!
# Interaction subsystem of wanrun: bookmarks and dogrun check-ins

A shallow embedding of `internal/interaction/core/handler/interaction_handler.go`
and `pkg/errors/errcode.go`.

* Go `int64`/`int` values are `Int` (the handlers do no arithmetic on them).
* A Go `error` result is `Option WRError` (`none` is `nil`); a `(value, error)`
  result is `Except WRError value`.
* The collaborators the handlers hold as interfaces (repository, facades) are
  records of functions over an abstract store `σ`; the handlers are written
  against these records exactly as the Go code is written against the interfaces.
* Every call a handler makes on a collaborator is written to `World.calls`, so
  that "is never invoked" and "is invoked once" are statements about a list.
* Logger calls have no effect on results or stores and are left out.
-/

namespace Wanrun

/-! ## pkg/errors -/

def OTHER : Int := 0
def AUTH : Int := 1
def DOG : Int := 2
def DOG_OWNER : Int := 3
def DOGRUN : Int := 4
def CMS : Int := 5

/-- Modelled from the spec: the service number of the `interaction` domain. The
handler calls `errors.NewInteractionClientErrorEType()`, which the available
`errcode.go` does not declare; the spec lists the domain after `cms`, so it takes
the next service number. -/
def INTERACTION : Int := 6

def CLIENT : Int := 1
def SERVER : Int := 2

structure eType where
  service : Int
  errorType : Int
deriving DecidableEq

def NewUnexpectedErrorEType : eType := ⟨OTHER, SERVER⟩
def NewAuthClientErrorEType : eType := ⟨AUTH, CLIENT⟩
def NewAuthServerErrorEType : eType := ⟨AUTH, SERVER⟩
def NewDogClientErrorEType : eType := ⟨DOG, CLIENT⟩
def NewDogServerErrorEType : eType := ⟨DOG, SERVER⟩
def NewDogOwnerClientErrorEType : eType := ⟨DOG_OWNER, CLIENT⟩
def NewDogOwnerServerErrorEType : eType := ⟨DOG_OWNER, SERVER⟩
def NewDogrunClientErrorEType : eType := ⟨DOGRUN, CLIENT⟩
def NewDogrunServerErrorEType : eType := ⟨DOGRUN, SERVER⟩
def NewCmsClientErrorEType : eType := ⟨CMS, CLIENT⟩
def NewCmsServerErrorEType : eType := ⟨CMS, SERVER⟩

/-- Modelled from the spec: the client-kind error type of the `interaction`
domain, used by `AddBookmark` and absent from the available `errcode.go`. -/
def NewInteractionClientErrorEType : eType := ⟨INTERACTION, CLIENT⟩

/-- Modelled from the spec: the error value built by `errors.NewWRError`, which is
not among the sources. Per the spec a failure carries the underlying cause (if
any), a human-readable message, and the domain and kind (the `eType`). -/
structure WRError where
  cause : Option String
  message : String
  etype : eType
deriving DecidableEq

def NewWRError (cause : Option String) (message : String) (t : eType) : WRError :=
  ⟨cause, message, t⟩

/-- The `%d` verb of `fmt.Sprintf` on an integer: decimal digits, with a leading
minus sign for a negative value. -/
def fmtD (n : Int) : String := toString n

/-! ## models -/

/-- Modelled from the spec: `model.DogrunBookmark` is not among the sources. The
spec gives a Bookmark a bookmark identifier (assigned on creation), the owning
caller identifier, the referenced dogrun identifier and a creation timestamp; the
columns are nullable (`sql.Null*`), rendered as `Option`. -/
structure DogrunBookmark where
  DogrunBookmarkID : Option Int := none
  DogOwnerID : Option Int := none
  DogrunID : Option Int := none
  SavedAt : Option Nat := none
deriving DecidableEq

/-- Modelled from the spec: `IsEmpty` of `model.DogrunBookmark` is not among the
sources. A record is empty when it carries no identifier: the identifier is
assigned on creation, so the record of a stored bookmark always has one and the
zero record a lookup yields for "not found" has none. -/
def DogrunBookmark.IsEmpty (b : DogrunBookmark) : Bool := b.DogrunBookmarkID.isNone

/-- Modelled from the spec: the negation of `IsEmpty`. -/
def DogrunBookmark.IsNotEmpty (b : DogrunBookmark) : Bool := !b.IsEmpty

/-- Modelled from the spec: `model.DogrunCheckin` is not among the sources. The
spec gives a DogrunCheckin a checkin identifier (assigned on first creation), a
dogrun identifier, a dog identifier and creation/update timestamps; timestamps
are kept at the daily granularity at which the spec scopes a check-in. -/
structure DogrunCheckin where
  DogrunCheckinID : Option Int := none
  DogrunID : Option Int := none
  DogID : Option Int := none
  CheckinAt : Option Nat := none
  ReCheckinAt : Option Nat := none
deriving DecidableEq

/-- Modelled from the spec: `IsEmpty` of `model.DogrunCheckin` is not among the
sources. As for bookmarks, a record is empty when it carries no identifier. -/
def DogrunCheckin.IsEmpty (r : DogrunCheckin) : Bool := r.DogrunCheckinID.isNone

/-- The `util.NewSqlNullInt64` constructor: a valid (non-null) value. -/
def NewSqlNullInt64 (v : Int) : Option Int := some v

/-! ## request bodies, context, collaborators -/

structure BookmarkAddReq where
  DogrunIDs : List Int
deriving DecidableEq

structure BookmarkDeleteReq where
  DogrunIDs : List Int
deriving DecidableEq

structure CheckinReq where
  DogrunID : Int
  DogIDs : List Int
deriving DecidableEq

/-- Modelled from the spec: the request context, as far as the handlers observe
it. `wrcontext.GetLoginUserID` is not among the sources; the spec's
`ResolveCallerID(request) -> (callerID, error)` yields the caller identifier or
fails when no verified identity is attached, and the context holds that outcome. -/
structure Context where
  loginUser : Except WRError Int

/-- Modelled from the spec: `wrcontext.GetLoginUserID`, reading the outcome held
by the context. -/
def GetLoginUserID (c : Context) : Except WRError Int := c.loginUser

/-- The calls a handler can make on its collaborators. -/
inductive Call where
  | CheckDogrunExistByIDs (ids : List Int)
  | GetLoginUserID
  | CheckDogownerValid (ids : List Int)
  | FindDogrunBookmark (dogrunID userID : Int)
  | AddBookmark (dogrunID userID : Int)
  | DeleteBookmark (dogrunIDs : List Int) (userID : Int)
  | FindDogrunCheckin (dogrunID dogID : Int)
  | SaveDogrunCheckins (checkins : List DogrunCheckin)
deriving DecidableEq

/-- The state a handler runs in: the repository's store and the calls made so
far, oldest first. -/
structure World (σ : Type) where
  store : σ
  calls : List Call

def World.log {σ : Type} (w : World σ) (k : Call) : World σ :=
  { w with calls := w.calls ++ [k] }

/-- The `dogrunFacade.IDogrunFacade` port: `none` when every dogrun exists, the
facade's error otherwise. -/
structure IDogrunFacade where
  CheckDogrunExistByIDs : Context → List Int → Option WRError

/-- The `dogFacade.IDogFacade` port: `none` when every dog belongs to the caller
of the context, the facade's error otherwise. -/
structure IDogFacade where
  CheckDogownerValid : Context → List Int → Option WRError

/-- The `repository.IBookmarkRepository` port over a store `σ`. A lookup reads
the store; an insert and a delete yield the store they leave behind. -/
structure IBookmarkRepository (σ : Type) where
  FindDogrunBookmark : σ → Context → Int → Int → Except WRError DogrunBookmark
  AddBookmark : σ → Context → Int → Int → Except WRError Int × σ
  DeleteBookmark : σ → Context → List Int → Int → Option WRError × σ

/-- The `repository.ICheckInOutRepository` port over a store `σ`. -/
structure ICheckInOutRepository (σ : Type) where
  FindDogrunCheckin : σ → Context → Int → Int → Except WRError DogrunCheckin
  SaveDogrunCheckins : σ → Context → List DogrunCheckin →
    Except WRError (List DogrunCheckin) × σ

/-! ## Bookmark handler -/

structure bookmarkHandler (σ : Type) where
  r : IBookmarkRepository σ
  drf : IDogrunFacade

/-- The duplicate-bookmark error of `AddBookmark` (lines 66-68). -/
def duplicateBookmarkError (dogrunID : Int) : WRError :=
  NewWRError none
    ("ドッグランID:" ++ fmtD dogrunID ++ "はすでにブックマークに登録されています。")
    NewInteractionClientErrorEType

/-- The `for _, dogrunID := range reqBody.DogrunIDs` loop of `AddBookmark`
(lines 60-76): `bookmarkIDs` is the accumulator, an early `return nil, err`
leaves the loop with the world reached so far. -/
def bookmarkHandler.addBookmarkLoop {σ : Type} (h : bookmarkHandler σ) (c : Context)
    (userID : Int) : List Int → List Int → World σ → Except WRError (List Int) × World σ
  | [], bookmarkIDs, w => (.ok bookmarkIDs, w)
  | dogrunID :: rest, bookmarkIDs, w =>
    let w1 := w.log (.FindDogrunBookmark dogrunID userID)
    match h.r.FindDogrunBookmark w1.store c dogrunID userID with
    | .error err => (.error err, w1)
    | .ok bookmark =>
      if bookmark.IsNotEmpty then
        (.error (duplicateBookmarkError dogrunID), w1)
      else
        let w2 := w1.log (.AddBookmark dogrunID userID)
        match h.r.AddBookmark w2.store c dogrunID userID with
        | (.error err, s) => (.error err, { w2 with store := s })
        | (.ok bookmarkId, s) =>
          bookmarkHandler.addBookmarkLoop h c userID rest (bookmarkIDs ++ [bookmarkId])
            { w2 with store := s }

/-- The handler `AddBookmark` (lines 41-79). -/
def bookmarkHandler.AddBookmark {σ : Type} (h : bookmarkHandler σ) (c : Context)
    (reqBody : BookmarkAddReq) (w : World σ) : Except WRError (List Int) × World σ :=
  let w1 := w.log (.CheckDogrunExistByIDs reqBody.DogrunIDs)
  match h.drf.CheckDogrunExistByIDs c reqBody.DogrunIDs with
  | some err => (.error err, w1)
  | none =>
    let w2 := w1.log .GetLoginUserID
    match GetLoginUserID c with
    | .error err => (.error err, w2)
    | .ok userID => h.addBookmarkLoop c userID reqBody.DogrunIDs [] w2

/-- The handler `DeleteBookmark` (lines 90-105). -/
def bookmarkHandler.DeleteBookmark {σ : Type} (h : bookmarkHandler σ) (c : Context)
    (reqBody : BookmarkDeleteReq) (w : World σ) : Option WRError × World σ :=
  let w1 := w.log .GetLoginUserID
  match GetLoginUserID c with
  | .error err => (some err, w1)
  | .ok userID =>
    let w2 := w1.log (.DeleteBookmark reqBody.DogrunIDs userID)
    match h.r.DeleteBookmark w2.store c reqBody.DogrunIDs userID with
    | (some err, s) => (some err, { w2 with store := s })
    | (none, s) => (none, { w2 with store := s })

/-! ## Check-in handler -/

structure checkInOutHandler (σ : Type) where
  r : ICheckInOutRepository σ
  drf : IDogrunFacade
  df : IDogFacade

/-- The record kept for a dog given the result of its lookup (lines 151-155): an
empty result gets `DogrunID` and `DogID` set, a non-empty one is kept as it is. -/
def checkinRecordOf (dogrunID dogID : Int) (checkinResult : DogrunCheckin) : DogrunCheckin :=
  if checkinResult.IsEmpty then
    { checkinResult with
      DogrunID := NewSqlNullInt64 dogrunID, DogID := NewSqlNullInt64 dogID }
  else checkinResult

/-- The `for _, dogID := range checkinDogIDs` loop of `CheckinDogrun`
(lines 146-157): `saveCheckins` is the accumulator. The loop only reads the
store. -/
def checkInOutHandler.checkinLoop {σ : Type} (h : checkInOutHandler σ) (c : Context)
    (dogrunID : Int) : List Int → List DogrunCheckin → World σ →
    Except WRError (List DogrunCheckin) × World σ
  | [], saveCheckins, w => (.ok saveCheckins, w)
  | dogID :: rest, saveCheckins, w =>
    let w1 := w.log (.FindDogrunCheckin dogrunID dogID)
    match h.r.FindDogrunCheckin w1.store c dogrunID dogID with
    | .error err => (.error err, w1)
    | .ok checkinResult =>
      checkInOutHandler.checkinLoop h c dogrunID rest
        (saveCheckins ++ [checkinRecordOf dogrunID dogID checkinResult]) w1

/-- The handler `CheckinDogrun` (lines 130-166). -/
def checkInOutHandler.CheckinDogrun {σ : Type} (h : checkInOutHandler σ) (c : Context)
    (reqBody : CheckinReq) (w : World σ) : Option WRError × World σ :=
  let dogrunID := reqBody.DogrunID
  let w1 := w.log (.CheckDogrunExistByIDs [dogrunID])
  match h.drf.CheckDogrunExistByIDs c [dogrunID] with
  | some err => (some err, w1)
  | none =>
    let checkinDogIDs := reqBody.DogIDs
    let w2 := w1.log (.CheckDogownerValid checkinDogIDs)
    match h.df.CheckDogownerValid c checkinDogIDs with
    | some err => (some err, w2)
    | none =>
      match h.checkinLoop c dogrunID checkinDogIDs [] w2 with
      | (.error err, w3) => (some err, w3)
      | (.ok saveCheckins, w3) =>
        let w4 := w3.log (.SaveDogrunCheckins saveCheckins)
        match h.r.SaveDogrunCheckins w4.store c saveCheckins with
        | (.error err, s) => (some err, { w4 with store := s })
        | (.ok _, s) => (none, { w4 with store := s })

/-! ## In-memory collaborators

The repository and the facades are interfaces whose production implementations
are outside the sources. The definitions below are the in-memory counterparts
the spec describes: a bookmark table, a check-in table, and facades backed by
the lists of existing dogruns and of owned dogs. -/

/-- Modelled from the spec: a stored bookmark. The repository implementation is
not among the sources; a stored row has its identifier, owner, dogrun and
creation timestamp, all assigned. -/
structure BookmarkRow where
  id : Int
  dogOwnerID : Int
  dogrunID : Int
  savedAt : Nat
deriving DecidableEq

/-- Modelled from the spec: the in-memory bookmark store: the stored rows, the
identifier the next insert assigns, and the clock used for creation timestamps. -/
structure BookmarkStore where
  rows : List BookmarkRow
  nextID : Int
  clock : Nat
deriving DecidableEq

def BookmarkRow.toModel (b : BookmarkRow) : DogrunBookmark :=
  { DogrunBookmarkID := some b.id, DogOwnerID := some b.dogOwnerID,
    DogrunID := some b.dogrunID, SavedAt := some b.savedAt }

/-- The row is the bookmark of caller `userID` for dogrun `dogrunID`. -/
def BookmarkRow.isFor (dogrunID userID : Int) (b : BookmarkRow) : Bool :=
  b.dogrunID == dogrunID && b.dogOwnerID == userID

/-- Modelled from the spec: `FindBookmark(callerID, dogrunID) -> (Bookmark,
exists)`: the stored bookmark of the pair when there is one, the zero record
otherwise. -/
def BookmarkStore.find (s : BookmarkStore) (dogrunID userID : Int) : DogrunBookmark :=
  match s.rows.find? (BookmarkRow.isFor dogrunID userID) with
  | some b => b.toModel
  | none => {}

/-- Modelled from the spec: `InsertBookmark(...) -> id`: a new row with the next
identifier, which is returned. -/
def BookmarkStore.insert (s : BookmarkStore) (dogrunID userID : Int) : Int × BookmarkStore :=
  (s.nextID,
    { s with
      rows := s.rows ++ [{ id := s.nextID, dogOwnerID := userID, dogrunID := dogrunID,
                            savedAt := s.clock }],
      nextID := s.nextID + 1 })

/-- Modelled from the spec: `DeleteBookmarks(callerID, ids)`: removes every row
of the caller whose dogrun is among `ids`, in one bulk operation. -/
def BookmarkStore.delete (s : BookmarkStore) (dogrunIDs : List Int) (userID : Int) :
    BookmarkStore :=
  let keep := fun (b : BookmarkRow) => !(b.dogOwnerID == userID && dogrunIDs.contains b.dogrunID)
  { s with rows := s.rows.filter keep }

/-- Modelled from the spec: the in-memory `IBookmarkRepository`, whose find,
insert and delete never fail. -/
def memBookmarkRepository : IBookmarkRepository BookmarkStore where
  FindDogrunBookmark := fun s _ dogrunID userID => .ok (s.find dogrunID userID)
  AddBookmark := fun s _ dogrunID userID =>
    (.ok (s.insert dogrunID userID).1, (s.insert dogrunID userID).2)
  DeleteBookmark := fun s _ dogrunIDs userID => (none, s.delete dogrunIDs userID)

/-- The number of stored bookmarks of caller `userID` for dogrun `dogrunID`. -/
def BookmarkStore.count (s : BookmarkStore) (userID dogrunID : Int) : Nat :=
  s.rows.countP (BookmarkRow.isFor dogrunID userID)

/-- The store holds at most one bookmark per (caller, dogrun) pair. -/
def BookmarkStore.Unique (s : BookmarkStore) : Prop :=
  ∀ userID dogrunID : Int, s.count userID dogrunID ≤ 1

/-- Modelled from the spec: a stored check-in, without its identifier. The
identifier of a row is its position in the table, counted from 1: identifiers
are assigned in insertion order and the core defines no deletion of check-ins. -/
structure CheckinRow where
  DogrunID : Option Int
  DogID : Option Int
  CheckinAt : Option Nat
  ReCheckinAt : Option Nat
deriving DecidableEq

/-- Modelled from the spec: the in-memory check-in store: the table and the
current day. -/
structure CheckinStore where
  rows : List CheckinRow
  today : Nat
deriving DecidableEq

def CheckinRow.toModel (id : Nat) (row : CheckinRow) : DogrunCheckin :=
  { DogrunCheckinID := some (id : Int), DogrunID := row.DogrunID, DogID := row.DogID,
    CheckinAt := row.CheckinAt, ReCheckinAt := row.ReCheckinAt }

def DogrunCheckin.toRow (r : DogrunCheckin) : CheckinRow :=
  { DogrunID := r.DogrunID, DogID := r.DogID, CheckinAt := r.CheckinAt,
    ReCheckinAt := r.ReCheckinAt }

/-- The row records dog `dogID` at dogrun `dogrunID` on day `day`. -/
def CheckinRow.isFor (dogrunID dogID : Int) (day : Nat) (row : CheckinRow) : Bool :=
  row.DogrunID == some dogrunID && row.DogID == some dogID && row.CheckinAt == some day

/-- The first row satisfying `p`, with its identifier; `id` is the identifier of
the head of the list. -/
def findRow (p : CheckinRow → Bool) : Nat → List CheckinRow → Option (Nat × CheckinRow)
  | _, [] => none
  | id, row :: rest => if p row then some (id, row) else findRow p (id + 1) rest

/-- Modelled from the spec: `FindTodayCheckin(dogrunID, dogID) -> (DogrunCheckin,
exists)`: today's record of the pair when there is one, the zero record
otherwise. -/
def CheckinStore.find (s : CheckinStore) (dogrunID dogID : Int) : DogrunCheckin :=
  match findRow (CheckinRow.isFor dogrunID dogID s.today) 1 s.rows with
  | some (id, row) => row.toModel id
  | none => {}

/-- Modelled from the spec: the upsert of one record: a record without identity
is inserted (the repository assigns the next identifier and stamps the creation
day), a record with identity updates in place the row of that identity (nothing
is written when no row has it). The record as saved is returned with the store. -/
def CheckinStore.upsert (s : CheckinStore) (r : DogrunCheckin) : DogrunCheckin × CheckinStore :=
  match r.DogrunCheckinID with
  | none =>
    let row : CheckinRow := { r.toRow with CheckinAt := some s.today }
    (row.toModel (s.rows.length + 1), { s with rows := s.rows ++ [row] })
  | some id =>
    if 1 ≤ id ∧ id ≤ (s.rows.length : Int) then
      (r, { s with rows := s.rows.set (id - 1).toNat r.toRow })
    else (r, s)

/-- Modelled from the spec: `UpsertCheckins(records)`: the bulk upsert, record by
record in the order submitted. -/
def CheckinStore.save : CheckinStore → List DogrunCheckin → List DogrunCheckin × CheckinStore
  | s, [] => ([], s)
  | s, r :: rest =>
    let saved := (s.upsert r).1
    let out := CheckinStore.save (s.upsert r).2 rest
    (saved :: out.1, out.2)

/-- Modelled from the spec: the in-memory `ICheckInOutRepository`, whose find and
bulk upsert never fail. -/
def memCheckInOutRepository : ICheckInOutRepository CheckinStore where
  FindDogrunCheckin := fun s _ dogrunID dogID => .ok (s.find dogrunID dogID)
  SaveDogrunCheckins := fun s _ checkins => (.ok (s.save checkins).1, (s.save checkins).2)

/-- The number of stored check-ins of dog `dogID` at dogrun `dogrunID` on `day`. -/
def CheckinStore.count (s : CheckinStore) (dogrunID dogID : Int) (day : Nat) : Nat :=
  s.rows.countP (CheckinRow.isFor dogrunID dogID day)

/-- The store holds at most one check-in per (dogrun, dog, day). -/
def CheckinStore.Unique (s : CheckinStore) : Prop :=
  ∀ (dogrunID dogID : Int) (day : Nat), s.count dogrunID dogID day ≤ 1

/-- Modelled from the spec: `CheckDogrunsExist(ids)` over the list of existing
dogruns: a client error naming the first missing identifier, if any. -/
def dogrunFacadeOf (existing : List Int) : IDogrunFacade where
  CheckDogrunExistByIDs := fun _ ids =>
    match ids.find? (fun id => !existing.contains id) with
    | some id => some (NewWRError none ("dogrun not found: " ++ fmtD id) NewDogrunClientErrorEType)
    | none => none

/-- Modelled from the spec: `CheckDogsOwnedBy(callerID, ids)` over the list of
(owner, dog) pairs: a client error when the caller is unknown or some dog is not
owned by the caller. -/
def dogFacadeOf (owned : List (Int × Int)) : IDogFacade where
  CheckDogownerValid := fun c ids =>
    match GetLoginUserID c with
    | .error err => some err
    | .ok userID =>
      if ids.all (fun id => owned.contains (userID, id)) then none
      else some (NewWRError none "dog not owned by the caller" NewDogClientErrorEType)

/-- The context of a request whose caller resolves to `userID`. -/
def contextOf (userID : Int) : Context := ⟨.ok userID⟩

/-- The calls made after the world `w0`, given the later world `w1`. -/
def callsSince {σ : Type} (w0 w1 : World σ) : List Call := w1.calls.drop w0.calls.length

def Call.isSaveDogrunCheckins : Call → Bool
  | .SaveDogrunCheckins _ => true
  | _ => false

def Call.isCheckDogrunExistByIDs : Call → Bool
  | .CheckDogrunExistByIDs _ => true
  | _ => false

/-- The call is made on a repository (bookmark or check-in). -/
def Call.isRepository : Call → Bool
  | .FindDogrunBookmark _ _ => true
  | .AddBookmark _ _ => true
  | .DeleteBookmark _ _ => true
  | .FindDogrunCheckin _ _ => true
  | .SaveDogrunCheckins _ => true
  | _ => false

/-- The identifiers the repository assigns, and the store it leaves, when the
bookmarks of caller `userID` for the dogruns `ids` are inserted one after
another. -/
def BookmarkStore.insertAll (s : BookmarkStore) (userID : Int) : List Int → List Int × BookmarkStore
  | [] => ([], s)
  | dogrunID :: rest =>
    let out := BookmarkStore.insertAll (s.insert dogrunID userID).2 userID rest
    ((s.insert dogrunID userID).1 :: out.1, out.2)

/-- The rows of caller `userID` for the dogruns `ids`, with consecutive
identifiers from `id` on and creation time `clock`. -/
def bookmarkRows (userID : Int) (clock : Nat) : Int → List Int → List BookmarkRow
  | _, [] => []
  | id, dogrunID :: rest =>
    { id := id, dogOwnerID := userID, dogrunID := dogrunID, savedAt := clock } ::
      bookmarkRows userID clock (id + 1) rest

/-- The bookmark handler over the in-memory repository. -/
def memBookmarkHandler (drf : IDogrunFacade) : bookmarkHandler BookmarkStore :=
  { r := memBookmarkRepository, drf := drf }

/-- The check-in handler over the in-memory repository. -/
def memCheckInOutHandler (drf : IDogrunFacade) (df : IDogFacade) :
    checkInOutHandler CheckinStore :=
  { r := memCheckInOutRepository, drf := drf, df := df }

deriving instance DecidableEq for Except

/-- The lookup of dog `dogID` succeeds on store `s`. -/
def checkInOutHandler.lookupOk {σ : Type} (h : checkInOutHandler σ) (c : Context) (s : σ)
    (dogrunID dogID : Int) : Prop :=
  ∃ found, h.r.FindDogrunCheckin s c dogrunID dogID = .ok found

/-- The record the loop keeps for dog `dogID` on store `s` (the zero record when
the lookup fails, in which case the loop keeps none). -/
def checkInOutHandler.recordFor {σ : Type} (h : checkInOutHandler σ) (c : Context) (s : σ)
    (dogrunID dogID : Int) : DogrunCheckin :=
  match h.r.FindDogrunCheckin s c dogrunID dogID with
  | .ok found => checkinRecordOf dogrunID dogID found
  | .error _ => {}

/-- The row the repository stores for a first check-in of dog `dogID` at dogrun
`dogrunID` on day `day`. -/
def newCheckinRow (dogrunID : Int) (day : Nat) (dogID : Int) : CheckinRow :=
  { DogrunID := some dogrunID, DogID := some dogID, CheckinAt := some day, ReCheckinAt := none }

/-- The dogs of `dogIDs` without a check-in today at dogrun `dogrunID`, in order. -/
def CheckinStore.absentDogs (s : CheckinStore) (dogrunID : Int) (dogIDs : List Int) : List Int :=
  dogIDs.filter (fun d => (s.find dogrunID d).IsEmpty)

/-! ## Sample collaborators and stores -/

/-- Dogruns 5, 6 and 7 exist. -/
def sampleDogruns : IDogrunFacade := dogrunFacadeOf [5, 6, 7]

/-- Caller 1 owns the dogs 10 and 11. -/
def sampleDogs : IDogFacade := dogFacadeOf [(1, 10), (1, 11)]

/-- Caller 1 has bookmarked dogrun 7 (bookmark 1); the next identifier is 2. -/
def sampleBookmarks : BookmarkStore :=
  { rows := [{ id := 1, dogOwnerID := 1, dogrunID := 7, savedAt := 0 }], nextID := 2, clock := 4 }

/-- No check-in is stored; the current day is 3. -/
def noCheckins : CheckinStore := { rows := [], today := 3 }

/-- Dog 10 is checked in at dogrun 5 today (day 3), as check-in 1. -/
def sampleCheckins : CheckinStore :=
  { rows := [newCheckinRow 5 3 10], today := 3 }

/-- The error of a lookup that cannot reach the store. -/
def lookupError : WRError :=
  NewWRError (some "connection refused") "lookup failed" NewUnexpectedErrorEType

/-- The in-memory check-in repository, except that the lookup of dog `bad` fails. -/
def failingCheckInOutRepository (bad : Int) : ICheckInOutRepository CheckinStore where
  FindDogrunCheckin := fun s c dogrunID dogID =>
    if dogID = bad then .error lookupError
    else memCheckInOutRepository.FindDogrunCheckin s c dogrunID dogID
  SaveDogrunCheckins := memCheckInOutRepository.SaveDogrunCheckins

/-- Caller 1 owns the dogs 10, 11 and 12. -/
def threeDogs : IDogFacade := dogFacadeOf [(1, 10), (1, 11), (1, 12)]

/-- The check-in handler over a repository whose lookup of dog 11 fails. -/
def failingCheckInOutHandler : checkInOutHandler CheckinStore :=
  { r := failingCheckInOutRepository 11, drf := sampleDogruns, df := threeDogs }

/-! ## Error codes and the unauthenticated request -/

/-- The method `eType.String` (lines 101-104):
`fmt.Sprintf("%d-%d", t.service, t.errorType)`. -/
def eType.String (t : eType) : String :=
  fmtD t.service ++ "-" ++ fmtD t.errorType

/-- The error types built by the eleven constructors of `errcode.go`, in the order
of the file. -/
def constructedETypes : List eType :=
  [NewUnexpectedErrorEType, NewAuthClientErrorEType, NewAuthServerErrorEType,
   NewDogClientErrorEType, NewDogServerErrorEType, NewDogOwnerClientErrorEType,
   NewDogOwnerServerErrorEType, NewDogrunClientErrorEType, NewDogrunServerErrorEType,
   NewCmsClientErrorEType, NewCmsServerErrorEType]

/-- The domains of the error taxonomy: auth, dog, dog-owner, dogrun, cms,
interaction, other. -/
def errorDomains : List Int := [AUTH, DOG, DOG_OWNER, DOGRUN, CMS, INTERACTION, OTHER]

/-- The value of a string of decimal digits, most significant digit first. -/
def decValue (ds : List Char) : Nat :=
  ds.foldl (fun acc ch => acc * 10 + (ch.toNat - 48)) 0

/-- The failure of identity resolution when the request carries no verified
claims (the error of `GetVerifiedClaims` in `identity/claim.go`). -/
def noClaimsError : WRError :=
  NewWRError none "クレーム情報が見つかりません。" NewDogOwnerClientErrorEType

/-- The context of a request without verified identity. -/
def anonymousContext : Context := ⟨.error noClaimsError⟩

/-! ## Bookmark store lemmas -/

theorem BookmarkStore.find_isNotEmpty (s : BookmarkStore) (d u : Int) :
    (s.find d u).IsNotEmpty = s.rows.any (BookmarkRow.isFor d u) := by
  unfold BookmarkStore.find
  cases h : s.rows.find? (BookmarkRow.isFor d u) with
  | none =>
    have h2 : s.rows.any (BookmarkRow.isFor d u) = false := by
      rw [List.any_eq_false]
      intro x hx
      have := List.find?_eq_none.mp h x hx
      simpa using this
    simp [DogrunBookmark.IsNotEmpty, DogrunBookmark.IsEmpty, h2]
  | some b =>
    have h2 : s.rows.any (BookmarkRow.isFor d u) = true := by
      rw [List.any_eq_true]
      exact ⟨b, List.mem_of_find?_eq_some h, List.find?_some h⟩
    simp [DogrunBookmark.IsNotEmpty, DogrunBookmark.IsEmpty, BookmarkRow.toModel, h2]

theorem BookmarkStore.insert_rows (s : BookmarkStore) (d u : Int) :
    (s.insert d u).2.rows = s.rows ++ [⟨s.nextID, u, d, s.clock⟩] := rfl

theorem BookmarkStore.any_insert (s : BookmarkStore) (d u d' u' : Int) :
    (s.insert d u).2.rows.any (BookmarkRow.isFor d' u') =
      (s.rows.any (BookmarkRow.isFor d' u') || (d == d' && u == u')) := by
  simp [BookmarkStore.insert_rows, BookmarkRow.isFor]

theorem BookmarkStore.insertAll_length (u : Int) :
    ∀ (ids : List Int) (s : BookmarkStore), (s.insertAll u ids).1.length = ids.length
  | [], _ => rfl
  | d :: rest, s => by
    simp [BookmarkStore.insertAll, BookmarkStore.insertAll_length u rest]

theorem BookmarkStore.insertAll_rows (u : Int) :
    ∀ (ids : List Int) (s : BookmarkStore),
      (s.insertAll u ids).2.rows = s.rows ++ bookmarkRows u s.clock s.nextID ids
  | [], s => by simp [BookmarkStore.insertAll, bookmarkRows]
  | d :: rest, s => by
    simp only [BookmarkStore.insertAll, bookmarkRows]
    rw [BookmarkStore.insertAll_rows u rest]
    simp [BookmarkStore.insert]

theorem any_bookmarkRows (u d' u' : Int) (clock : Nat) :
    ∀ (ids : List Int) (id : Int),
      (bookmarkRows u clock id ids).any (BookmarkRow.isFor d' u') = (ids.contains d' && u == u')
  | [], _ => by simp [bookmarkRows]
  | d :: rest, id => by
    simp only [bookmarkRows, List.any_cons, any_bookmarkRows u d' u' clock rest, List.contains_cons,
      BookmarkRow.isFor]
    rw [Bool.eq_iff_iff]
    simp only [Bool.or_eq_true, Bool.and_eq_true, beq_iff_eq]
    constructor
    · rintro (⟨h1, h2⟩ | ⟨h1, h2⟩)
      · exact ⟨Or.inl h1.symm, h2⟩
      · exact ⟨Or.inr h1, h2⟩
    · rintro ⟨h1 | h1, h2⟩
      · exact Or.inl ⟨h1.symm, h2⟩
      · exact Or.inr ⟨h1, h2⟩

theorem BookmarkStore.any_insertAll (u d' u' : Int) (ids : List Int) (s : BookmarkStore) :
    (s.insertAll u ids).2.rows.any (BookmarkRow.isFor d' u') =
      (s.rows.any (BookmarkRow.isFor d' u') || (ids.contains d' && u == u')) := by
  rw [BookmarkStore.insertAll_rows, List.any_append, any_bookmarkRows]

/-! ## The AddBookmark loop over the in-memory repository -/

theorem addBookmarkLoop_mem_found (drf : IDogrunFacade) (c : Context) (u d : Int)
    (rest acc : List Int) (s : BookmarkStore) (calls : List Call)
    (h : s.rows.any (BookmarkRow.isFor d u) = true) :
    (memBookmarkHandler drf).addBookmarkLoop c u (d :: rest) acc ⟨s, calls⟩ =
      (.error (duplicateBookmarkError d), ⟨s, calls ++ [.FindDogrunBookmark d u]⟩) := by
  simp [bookmarkHandler.addBookmarkLoop, memBookmarkHandler, memBookmarkRepository, World.log,
    BookmarkStore.find_isNotEmpty, h]

theorem addBookmarkLoop_mem_absent (drf : IDogrunFacade) (c : Context) (u d : Int)
    (rest acc : List Int) (s : BookmarkStore) (calls : List Call)
    (h : s.rows.any (BookmarkRow.isFor d u) = false) :
    (memBookmarkHandler drf).addBookmarkLoop c u (d :: rest) acc ⟨s, calls⟩ =
      (memBookmarkHandler drf).addBookmarkLoop c u rest (acc ++ [(s.insert d u).1])
        ⟨(s.insert d u).2, calls ++ [.FindDogrunBookmark d u, .AddBookmark d u]⟩ := by
  simp [bookmarkHandler.addBookmarkLoop, memBookmarkHandler, memBookmarkRepository, World.log,
    BookmarkStore.find_isNotEmpty, h]

/-- Over the in-memory repository the loop inserts every dogrun of a duplicate-free
list none of which is bookmarked. -/
theorem addBookmarkLoop_mem_ok (drf : IDogrunFacade) (c : Context) (u : Int) :
    ∀ (ids acc : List Int) (s : BookmarkStore) (calls : List Call),
      ids.Nodup → (∀ id ∈ ids, s.rows.any (BookmarkRow.isFor id u) = false) →
      ((memBookmarkHandler drf).addBookmarkLoop c u ids acc ⟨s, calls⟩).1 =
          .ok (acc ++ (s.insertAll u ids).1) ∧
        ((memBookmarkHandler drf).addBookmarkLoop c u ids acc ⟨s, calls⟩).2.store =
          (s.insertAll u ids).2
  | [], acc, s, calls, _, _ => by
    simp [bookmarkHandler.addBookmarkLoop, BookmarkStore.insertAll]
  | d :: rest, acc, s, calls, hnd, hnb => by
    have hd : s.rows.any (BookmarkRow.isFor d u) = false := hnb d (List.mem_cons_self _ _)
    rw [addBookmarkLoop_mem_absent drf c u d rest acc s calls hd]
    have hnd' : rest.Nodup := (List.nodup_cons.mp hnd).2
    have hnotin : d ∉ rest := (List.nodup_cons.mp hnd).1
    have hnb' : ∀ id ∈ rest, (s.insert d u).2.rows.any (BookmarkRow.isFor id u) = false := by
      intro id hid
      rw [BookmarkStore.any_insert, hnb id (List.mem_cons_of_mem _ hid)]
      have : d ≠ id := fun e => hnotin (e ▸ hid)
      simp [this]
    have ih := addBookmarkLoop_mem_ok drf c u rest (acc ++ [(s.insert d u).1])
      (s.insert d u).2 (calls ++ [.FindDogrunBookmark d u, .AddBookmark d u]) hnd' hnb'
    simpa [BookmarkStore.insertAll] using ih

/-- Over the in-memory repository the loop stops at the first dogrun that is
bookmarked when the loop reaches it, having inserted the ones before it. -/
theorem addBookmarkLoop_mem_dup (drf : IDogrunFacade) (c : Context) (u d : Int)
    (post : List Int) :
    ∀ (pre acc : List Int) (s : BookmarkStore) (calls : List Call),
      pre.Nodup → (∀ id ∈ pre, s.rows.any (BookmarkRow.isFor id u) = false) →
      (d ∈ pre ∨ s.rows.any (BookmarkRow.isFor d u) = true) →
      ((memBookmarkHandler drf).addBookmarkLoop c u (pre ++ d :: post) acc ⟨s, calls⟩).1 =
          .error (duplicateBookmarkError d) ∧
        ((memBookmarkHandler drf).addBookmarkLoop c u (pre ++ d :: post) acc ⟨s, calls⟩).2.store =
          (s.insertAll u pre).2
  | [], acc, s, calls, _, _, hd => by
    have hd' : s.rows.any (BookmarkRow.isFor d u) = true := by
      rcases hd with h | h
      · cases h
      · exact h
    rw [List.nil_append, addBookmarkLoop_mem_found drf c u d post acc s calls hd']
    simp [BookmarkStore.insertAll]
  | x :: pre, acc, s, calls, hnd, hnb, hd => by
    have hx : s.rows.any (BookmarkRow.isFor x u) = false := hnb x (List.mem_cons_self _ _)
    rw [List.cons_append, addBookmarkLoop_mem_absent drf c u x (pre ++ d :: post) acc s calls hx]
    have hnd' : pre.Nodup := (List.nodup_cons.mp hnd).2
    have hnotin : x ∉ pre := (List.nodup_cons.mp hnd).1
    have hnb' : ∀ id ∈ pre, (s.insert x u).2.rows.any (BookmarkRow.isFor id u) = false := by
      intro id hid
      rw [BookmarkStore.any_insert, hnb id (List.mem_cons_of_mem _ hid)]
      have : x ≠ id := fun e => hnotin (e ▸ hid)
      simp [this]
    have hd' : d ∈ pre ∨ (s.insert x u).2.rows.any (BookmarkRow.isFor d u) = true := by
      rw [BookmarkStore.any_insert]
      rcases hd with h | h
      · rcases List.mem_cons.mp h with h | h
        · right; simp [h]
        · left; exact h
      · right; simp [h]
    have ih := addBookmarkLoop_mem_dup drf c u d post pre (acc ++ [(s.insert x u).1])
      (s.insert x u).2 (calls ++ [.FindDogrunBookmark x u, .AddBookmark x u]) hnd' hnb' hd'
    simpa [BookmarkStore.insertAll] using ih

/-- The identifier returned at position `i` is the identifier of the stored
bookmark of the caller for the dogrun at position `i`. -/
theorem BookmarkStore.insertAll_getElem? (u : Int) :
    ∀ (ids : List Int) (s : BookmarkStore) (i : Nat) (id d : Int),
      (s.insertAll u ids).1[i]? = some id → ids[i]? = some d →
      (⟨id, u, d, s.clock⟩ : BookmarkRow) ∈ (s.insertAll u ids).2.rows
  | [], _, i, id, d, h, _ => by simp [BookmarkStore.insertAll] at h
  | x :: rest, s, 0, id, d, h1, h2 => by
    simp only [BookmarkStore.insertAll, List.getElem?_cons_zero, Option.some.injEq] at h1 h2
    simp only [BookmarkStore.insertAll]
    rw [BookmarkStore.insertAll_rows, BookmarkStore.insert_rows]
    subst h2
    rw [← h1]
    simp [BookmarkStore.insert]
  | x :: rest, s, i + 1, id, d, h1, h2 => by
    simp only [BookmarkStore.insertAll, List.getElem?_cons_succ] at h1 h2
    simp only [BookmarkStore.insertAll]
    exact BookmarkStore.insertAll_getElem? u rest (s.insert x u).2 i id d h1 h2

/-! ## Claims on the bookmark handler -/

/-- C1: when the caller resolves to `C`, the existence facade accepts `ids`, and
`ids` is a non-empty sequence of distinct dogruns none of which `C` has
bookmarked, `AddBookmark` over the in-memory repository succeeds; it returns
exactly the identifiers the repository assigned on inserting the bookmarks
`(C, ids[i])` in order, one per input, the store is the one these inserts leave,
the identifier at position `i` is that of the stored bookmark `(C, ids[i])`, and
afterwards `FindDogrunBookmark(ids[i], C)` is non-empty for every `i`. -/
theorem C1_addBookmark_success (drf : IDogrunFacade) (c : Context) (C : Int) (ids : List Int)
    (s : BookmarkStore) (calls : List Call)
    (hC : GetLoginUserID c = .ok C)
    (hne : ids ≠ [])
    (hnd : ids.Nodup)
    (hex : drf.CheckDogrunExistByIDs c ids = none)
    (hnb : ∀ id ∈ ids, (s.find id C).IsNotEmpty = false) :
    ((memBookmarkHandler drf).AddBookmark c ⟨ids⟩ ⟨s, calls⟩).1 = .ok (s.insertAll C ids).1 ∧
    ((memBookmarkHandler drf).AddBookmark c ⟨ids⟩ ⟨s, calls⟩).2.store = (s.insertAll C ids).2 ∧
    (s.insertAll C ids).1.length = ids.length ∧
    (∀ (i : Nat) (id d : Int), (s.insertAll C ids).1[i]? = some id → ids[i]? = some d →
      (⟨id, C, d, s.clock⟩ : BookmarkRow) ∈
        ((memBookmarkHandler drf).AddBookmark c ⟨ids⟩ ⟨s, calls⟩).2.store.rows) ∧
    ∀ id ∈ ids,
      ((memBookmarkRepository.FindDogrunBookmark
          ((memBookmarkHandler drf).AddBookmark c ⟨ids⟩ ⟨s, calls⟩).2.store c id C).map
        DogrunBookmark.IsNotEmpty) = .ok true := by
  have _ := hne
  have hnb' : ∀ id ∈ ids, s.rows.any (BookmarkRow.isFor id C) = false := by
    intro id hid
    rw [← BookmarkStore.find_isNotEmpty]
    exact hnb id hid
  have hrun : (memBookmarkHandler drf).AddBookmark c ⟨ids⟩ ⟨s, calls⟩ =
      (memBookmarkHandler drf).addBookmarkLoop c C ids []
        ⟨s, calls ++ [.CheckDogrunExistByIDs ids, .GetLoginUserID]⟩ := by
    have hex' : (memBookmarkHandler drf).drf.CheckDogrunExistByIDs c ids = none := hex
    simp [bookmarkHandler.AddBookmark, hex', hC, World.log]
  have hloop := addBookmarkLoop_mem_ok drf c C ids [] s
    (calls ++ [.CheckDogrunExistByIDs ids, .GetLoginUserID]) hnd hnb'
  rw [hrun]
  refine ⟨by simpa using hloop.1, hloop.2, BookmarkStore.insertAll_length C ids s, ?_, ?_⟩
  · intro i id d h1 h2
    rw [hloop.2]
    exact BookmarkStore.insertAll_getElem? C ids s i id d h1 h2
  · intro id hid
    rw [hloop.2]
    have h := BookmarkStore.any_insertAll C id C ids s
    have hc : ids.contains id = true := by simpa using hid
    simp only [memBookmarkRepository, Except.map, BookmarkStore.find_isNotEmpty, h, hc]
    simp

/-- C2: for any repository, if the existence facade rejects `ids` with `err`,
`AddBookmark` returns `err` and no identifiers, the store is the store before the
call, and the only call made is the facade check: no call reaches the
repository. -/
theorem C2_addBookmark_missing_dogrun {σ : Type} (h : bookmarkHandler σ) (c : Context)
    (ids : List Int) (w : World σ) (err : WRError)
    (hmissing : h.drf.CheckDogrunExistByIDs c ids = some err) :
    (h.AddBookmark c ⟨ids⟩ w).1 = .error err ∧
    (h.AddBookmark c ⟨ids⟩ w).2.store = w.store ∧
    (h.AddBookmark c ⟨ids⟩ w).2.calls = w.calls ++ [.CheckDogrunExistByIDs ids] ∧
    (callsSince w (h.AddBookmark c ⟨ids⟩ w).2).countP Call.isRepository = 0 := by
  simp [bookmarkHandler.AddBookmark, hmissing, World.log, callsSince, Call.isRepository]

/-- C3: over the in-memory repository, when the facade accepts the request
`pre ++ d :: post`, the dogruns of `pre` are distinct and not bookmarked by `C`,
and `d` is bookmarked by `C` when the loop reaches it (already stored, or inserted
for `pre`), `AddBookmark` fails with the duplicate-bookmark error for `d` and
leaves the store with exactly one new bookmark `(C, x)` for each `x` of `pre`,
appended in order, and none for `d` or `post`. -/
theorem C3_addBookmark_nonatomic (drf : IDogrunFacade) (c : Context) (C : Int)
    (pre : List Int) (d : Int) (post : List Int) (s : BookmarkStore) (calls : List Call)
    (hC : GetLoginUserID c = .ok C)
    (hex : drf.CheckDogrunExistByIDs c (pre ++ d :: post) = none)
    (hnd : pre.Nodup)
    (hnb : ∀ id ∈ pre, (s.find id C).IsNotEmpty = false)
    (hd : d ∈ pre ∨ (s.find d C).IsNotEmpty = true) :
    ((memBookmarkHandler drf).AddBookmark c ⟨pre ++ d :: post⟩ ⟨s, calls⟩).1 =
      .error (duplicateBookmarkError d) ∧
    ((memBookmarkHandler drf).AddBookmark c ⟨pre ++ d :: post⟩ ⟨s, calls⟩).2.store.rows =
      s.rows ++ bookmarkRows C s.clock s.nextID pre ∧
    ((memBookmarkHandler drf).AddBookmark c ⟨pre ++ d :: post⟩ ⟨s, calls⟩).2.store =
      (s.insertAll C pre).2 := by
  have hnb' : ∀ id ∈ pre, s.rows.any (BookmarkRow.isFor id C) = false := by
    intro id hid
    rw [← BookmarkStore.find_isNotEmpty]
    exact hnb id hid
  have hd' : d ∈ pre ∨ s.rows.any (BookmarkRow.isFor d C) = true := by
    rw [← BookmarkStore.find_isNotEmpty]
    exact hd
  have hrun : (memBookmarkHandler drf).AddBookmark c ⟨pre ++ d :: post⟩ ⟨s, calls⟩ =
      (memBookmarkHandler drf).addBookmarkLoop c C (pre ++ d :: post) []
        ⟨s, calls ++ [.CheckDogrunExistByIDs (pre ++ d :: post), .GetLoginUserID]⟩ := by
    have hex' : (memBookmarkHandler drf).drf.CheckDogrunExistByIDs c (pre ++ d :: post) = none :=
      hex
    simp [bookmarkHandler.AddBookmark, hex', hC, World.log]
  have hloop := addBookmarkLoop_mem_dup drf c C d post pre [] s
    (calls ++ [.CheckDogrunExistByIDs (pre ++ d :: post), .GetLoginUserID]) hnd hnb' hd'
  rw [hrun]
  refine ⟨hloop.1, ?_, hloop.2⟩
  rw [hloop.2, BookmarkStore.insertAll_rows]

/-! ## Uniqueness of bookmarks -/

theorem BookmarkStore.bookmark_count_pos_iff (s : BookmarkStore) (u d : Int) :
    0 < s.count u d ↔ s.rows.any (BookmarkRow.isFor d u) = true := by
  unfold BookmarkStore.count
  rw [List.countP_pos_iff, List.any_eq_true]

theorem BookmarkStore.count_insert (s : BookmarkStore) (d u u' d' : Int) :
    (s.insert d u).2.count u' d' =
      s.count u' d' + (if (d == d' && u == u') = true then 1 else 0) := by
  unfold BookmarkStore.count
  rw [BookmarkStore.insert_rows, List.countP_append]
  simp [List.countP_cons, BookmarkRow.isFor]

theorem BookmarkStore.unique_insert (s : BookmarkStore) (d u : Int)
    (habsent : s.rows.any (BookmarkRow.isFor d u) = false) (hu : s.Unique) :
    (s.insert d u).2.Unique := by
  intro u' d'
  rw [BookmarkStore.count_insert]
  by_cases hk : (d == d' && u == u') = true
  · have hd : d = d' := by simp at hk; exact hk.1
    have hu' : u = u' := by simp at hk; exact hk.2
    subst hd; subst hu'
    have hz : s.count u d = 0 := by
      by_contra hne
      have hpos : 0 < s.count u d := Nat.pos_of_ne_zero hne
      rw [BookmarkStore.bookmark_count_pos_iff, habsent] at hpos
      cases hpos
    simp [hz]
  · simp only [hk, if_false, Nat.add_zero]
    exact hu u' d'

theorem BookmarkStore.count_delete_le (s : BookmarkStore) (ids : List Int) (u u' d' : Int) :
    (s.delete ids u).count u' d' ≤ s.count u' d' := by
  unfold BookmarkStore.count BookmarkStore.delete
  exact List.Sublist.countP_le _ (List.filter_sublist _)

theorem BookmarkStore.unique_delete (s : BookmarkStore) (ids : List Int) (u : Int)
    (hu : s.Unique) : (s.delete ids u).Unique :=
  fun u' d' => Nat.le_trans (s.count_delete_le ids u u' d') (hu u' d')

theorem addBookmarkLoop_mem_unique (drf : IDogrunFacade) (c : Context) (u : Int) :
    ∀ (ids acc : List Int) (s : BookmarkStore) (calls : List Call), s.Unique →
      ((memBookmarkHandler drf).addBookmarkLoop c u ids acc ⟨s, calls⟩).2.store.Unique
  | [], acc, s, calls, hu => by
    simpa [bookmarkHandler.addBookmarkLoop] using hu
  | d :: rest, acc, s, calls, hu => by
    cases hd : s.rows.any (BookmarkRow.isFor d u) with
    | true =>
      rw [addBookmarkLoop_mem_found drf c u d rest acc s calls hd]
      exact hu
    | false =>
      rw [addBookmarkLoop_mem_absent drf c u d rest acc s calls hd]
      exact addBookmarkLoop_mem_unique drf c u rest _ _ _ (s.unique_insert d u hd hu)

/-- C4: over the in-memory store, where a lookup is non-empty exactly when the
store holds a bookmark of the pair, a store with at most one bookmark per
(caller, dogrun) pair still has at most one per pair after `AddBookmark` and
after `DeleteBookmark`, for every context (resolving or not), every facade
answer and every input sequence, whatever the call returns. -/
theorem C4_bookmark_unique (drf : IDogrunFacade) (c : Context) (ids : List Int)
    (s : BookmarkStore) (calls : List Call) (hu : s.Unique) :
    (∀ d u : Int, (s.find d u).IsNotEmpty = true ↔ 0 < s.count u d) ∧
    ((memBookmarkHandler drf).AddBookmark c ⟨ids⟩ ⟨s, calls⟩).2.store.Unique ∧
    ((memBookmarkHandler drf).DeleteBookmark c ⟨ids⟩ ⟨s, calls⟩).2.store.Unique := by
  refine ⟨?_, ?_, ?_⟩
  · intro d u
    rw [BookmarkStore.find_isNotEmpty, BookmarkStore.bookmark_count_pos_iff]
  · unfold bookmarkHandler.AddBookmark
    cases hex : (memBookmarkHandler drf).drf.CheckDogrunExistByIDs c ids with
    | some err => simpa [hex, World.log] using hu
    | none =>
      cases hC : GetLoginUserID c with
      | error err => simpa [hex, hC, World.log] using hu
      | ok u =>
        simp only [hex, hC, World.log]
        exact addBookmarkLoop_mem_unique drf c u ids [] s _ hu
  · unfold bookmarkHandler.DeleteBookmark
    cases hC : GetLoginUserID c with
    | error err => simpa [hC, World.log] using hu
    | ok u =>
      simp only [hC, World.log, memBookmarkHandler, memBookmarkRepository]
      exact s.unique_delete ids u hu

/-! ## DeleteBookmark -/

theorem BookmarkStore.delete_delete (s : BookmarkStore) (ids : List Int) (u : Int) :
    (s.delete ids u).delete ids u = s.delete ids u := by
  simp [BookmarkStore.delete, List.filter_filter]

theorem BookmarkStore.delete_eq_self (s : BookmarkStore) (ids : List Int) (u : Int)
    (h : ∀ id ∈ ids, s.rows.any (BookmarkRow.isFor id u) = false) : s.delete ids u = s := by
  have hrows : s.rows.filter
      (fun b => !(b.dogOwnerID == u && ids.contains b.dogrunID)) = s.rows := by
    rw [List.filter_eq_self]
    intro b hb
    by_contra hne
    have hm : b.dogOwnerID = u ∧ b.dogrunID ∈ ids := by simpa using hne
    have hany := h b.dogrunID hm.2
    rw [List.any_eq_false] at hany
    exact hany b hb (by simp [BookmarkRow.isFor, hm.1])
  cases s
  simp only [BookmarkStore.delete] at hrows ⊢
  rw [hrows]

theorem deleteBookmark_mem (drf : IDogrunFacade) (c : Context) (C : Int) (ids : List Int)
    (s : BookmarkStore) (calls : List Call) (hC : GetLoginUserID c = .ok C) :
    (memBookmarkHandler drf).DeleteBookmark c ⟨ids⟩ ⟨s, calls⟩ =
      (none, ⟨s.delete ids C, calls ++ [.GetLoginUserID, .DeleteBookmark ids C]⟩) := by
  simp [bookmarkHandler.DeleteBookmark, hC, World.log, memBookmarkHandler, memBookmarkRepository]

/-- C7: when the caller resolves to `C`, `DeleteBookmark` over any repository
returns exactly what the repository's bulk delete returns (so it succeeds
whenever the delete succeeds) and calls only the identity resolution and the
bulk delete, never the existence facade; over the in-memory repository it
succeeds for every `ids`, leaves the store unchanged when `C` has bookmarked none
of `ids`, and a second application leaves the store of the first. -/
theorem C7_deleteBookmark_idempotent {σ : Type} (h : bookmarkHandler σ) (w : World σ)
    (drf : IDogrunFacade) (c : Context) (C : Int) (ids : List Int)
    (s : BookmarkStore) (calls : List Call) (hC : GetLoginUserID c = .ok C) :
    (h.DeleteBookmark c ⟨ids⟩ w).1 = (h.r.DeleteBookmark w.store c ids C).1 ∧
    (h.DeleteBookmark c ⟨ids⟩ w).2.calls = w.calls ++ [.GetLoginUserID, .DeleteBookmark ids C] ∧
    (callsSince w (h.DeleteBookmark c ⟨ids⟩ w).2).countP Call.isCheckDogrunExistByIDs = 0 ∧
    ((memBookmarkHandler drf).DeleteBookmark c ⟨ids⟩ ⟨s, calls⟩).1 = none ∧
    ((∀ id ∈ ids, (s.find id C).IsNotEmpty = false) →
      ((memBookmarkHandler drf).DeleteBookmark c ⟨ids⟩ ⟨s, calls⟩).2.store = s) ∧
    ((memBookmarkHandler drf).DeleteBookmark c ⟨ids⟩
        ((memBookmarkHandler drf).DeleteBookmark c ⟨ids⟩ ⟨s, calls⟩).2).1 = none ∧
    ((memBookmarkHandler drf).DeleteBookmark c ⟨ids⟩
        ((memBookmarkHandler drf).DeleteBookmark c ⟨ids⟩ ⟨s, calls⟩).2).2.store =
      ((memBookmarkHandler drf).DeleteBookmark c ⟨ids⟩ ⟨s, calls⟩).2.store := by
  have hgen : h.DeleteBookmark c ⟨ids⟩ w =
      ((h.r.DeleteBookmark w.store c ids C).1,
        ⟨(h.r.DeleteBookmark w.store c ids C).2,
          w.calls ++ [.GetLoginUserID, .DeleteBookmark ids C]⟩) := by
    unfold bookmarkHandler.DeleteBookmark
    simp only [hC, World.log]
    rcases hr : h.r.DeleteBookmark w.store c ids C with ⟨e, s'⟩
    cases e <;> simp
  rw [deleteBookmark_mem drf c C ids s calls hC, deleteBookmark_mem drf c C ids _ _ hC, hgen]
  refine ⟨rfl, rfl, ?_, rfl, ?_, rfl, ?_⟩
  · simp [callsSince, Call.isCheckDogrunExistByIDs]
  · intro hnone
    apply BookmarkStore.delete_eq_self
    intro id hid
    rw [← BookmarkStore.find_isNotEmpty]
    exact hnone id hid
  · exact s.delete_delete ids C

theorem BookmarkStore.bookmarks_unique_of_length_le_one (s : BookmarkStore) (h : s.rows.length ≤ 1) :
    s.Unique :=
  fun _ _ => Nat.le_trans (List.countP_le_length _) h

/-! ## The bookmark claims on the sample store -/

/-- C1 at caller 1 and dogruns 5 and 6: the bookmarks 2 and 3 are created. -/
theorem C1_addBookmark_success_witness :
    GetLoginUserID (contextOf 1) = .ok 1 ∧
    sampleDogruns.CheckDogrunExistByIDs (contextOf 1) [5, 6] = none ∧
    (sampleBookmarks.find 5 1).IsNotEmpty = false ∧
    (sampleBookmarks.find 6 1).IsNotEmpty = false ∧
    ((memBookmarkHandler sampleDogruns).AddBookmark (contextOf 1) ⟨[5, 6]⟩
      ⟨sampleBookmarks, []⟩).1 = .ok [2, 3] :=
  ⟨rfl, by decide, by decide, by decide,
    (C1_addBookmark_success sampleDogruns (contextOf 1) 1 [5, 6] sampleBookmarks [] rfl
      (by decide) (by decide) (by decide) (by decide)).1⟩

/-- C2 at dogruns 5 and 8, of which 8 does not exist: nothing is stored. -/
theorem C2_addBookmark_missing_dogrun_witness :
    (sampleDogruns.CheckDogrunExistByIDs (contextOf 1) [5, 8]).isSome = true ∧
    ((memBookmarkHandler sampleDogruns).AddBookmark (contextOf 1) ⟨[5, 8]⟩
      ⟨sampleBookmarks, []⟩).2.store = sampleBookmarks :=
  ⟨by decide,
    (C2_addBookmark_missing_dogrun (memBookmarkHandler sampleDogruns) (contextOf 1) [5, 8]
      ⟨sampleBookmarks, []⟩
      (NewWRError none ("dogrun not found: " ++ fmtD 8) NewDogrunClientErrorEType)
      (by decide)).2.1⟩

/-- C3 at caller 1 and dogruns 5 then 7, of which 7 is already bookmarked: the
bookmark for 5 is stored and the call fails on 7. -/
theorem C3_addBookmark_nonatomic_witness :
    (sampleBookmarks.find 5 1).IsNotEmpty = false ∧
    (sampleBookmarks.find 7 1).IsNotEmpty = true ∧
    ((memBookmarkHandler sampleDogruns).AddBookmark (contextOf 1) ⟨[5, 7]⟩
      ⟨sampleBookmarks, []⟩).1 = .error (duplicateBookmarkError 7) ∧
    ((memBookmarkHandler sampleDogruns).AddBookmark (contextOf 1) ⟨[5, 7]⟩
      ⟨sampleBookmarks, []⟩).2.store.rows =
      [⟨1, 1, 7, 0⟩, ⟨2, 1, 5, 4⟩] :=
  ⟨by decide, by decide,
    (C3_addBookmark_nonatomic sampleDogruns (contextOf 1) 1 [5] 7 [] sampleBookmarks [] rfl
      (by decide) (by decide) (by decide) (Or.inr (by decide))).1,
    (C3_addBookmark_nonatomic sampleDogruns (contextOf 1) 1 [5] 7 [] sampleBookmarks [] rfl
      (by decide) (by decide) (by decide) (Or.inr (by decide))).2.1⟩

/-- C4 at the sample store and the request 5, 5, a repeated dogrun. -/
theorem C4_bookmark_unique_witness :
    sampleBookmarks.Unique ∧
    ((memBookmarkHandler sampleDogruns).AddBookmark (contextOf 1) ⟨[5, 5]⟩
      ⟨sampleBookmarks, []⟩).2.store.Unique ∧
    ((memBookmarkHandler sampleDogruns).DeleteBookmark (contextOf 1) ⟨[5, 5]⟩
      ⟨sampleBookmarks, []⟩).2.store.Unique :=
  ⟨sampleBookmarks.bookmarks_unique_of_length_le_one (by decide),
    (C4_bookmark_unique sampleDogruns (contextOf 1) [5, 5] sampleBookmarks []
      (sampleBookmarks.bookmarks_unique_of_length_le_one (by decide))).2⟩

/-- C7 at caller 1 and the dogruns 5 and 99, none of them bookmarked, 99 not
even existing: the call succeeds and the store is unchanged. -/
theorem C7_deleteBookmark_idempotent_witness :
    GetLoginUserID (contextOf 1) = .ok 1 ∧
    ((memBookmarkHandler sampleDogruns).DeleteBookmark (contextOf 1) ⟨[5, 99]⟩
      ⟨sampleBookmarks, []⟩).1 = none ∧
    ((memBookmarkHandler sampleDogruns).DeleteBookmark (contextOf 1) ⟨[5, 99]⟩
      ⟨sampleBookmarks, []⟩).2.store = sampleBookmarks :=
  ⟨rfl,
    (C7_deleteBookmark_idempotent (memBookmarkHandler sampleDogruns) ⟨sampleBookmarks, []⟩
      sampleDogruns (contextOf 1) 1 [5, 99] sampleBookmarks [] rfl).2.2.2.1,
    (C7_deleteBookmark_idempotent (memBookmarkHandler sampleDogruns) ⟨sampleBookmarks, []⟩
      sampleDogruns (contextOf 1) 1 [5, 99] sampleBookmarks [] rfl).2.2.2.2.1 (by decide)⟩

/-! ## The check-in loop over any repository -/

theorem checkinLoop_cons {σ : Type} (h : checkInOutHandler σ) (c : Context) (r d : Int)
    (rest : List Int) (acc : List DogrunCheckin) (w : World σ) :
    h.checkinLoop c r (d :: rest) acc w =
      match h.r.FindDogrunCheckin w.store c r d with
      | .error err => (.error err, w.log (.FindDogrunCheckin r d))
      | .ok found =>
        h.checkinLoop c r rest (acc ++ [checkinRecordOf r d found]) (w.log (.FindDogrunCheckin r d)) := by
  rw [checkInOutHandler.checkinLoop]
  rfl

theorem checkinLoop_store {σ : Type} (h : checkInOutHandler σ) (c : Context) (r : Int) :
    ∀ (ids : List Int) (acc : List DogrunCheckin) (w : World σ),
      (h.checkinLoop c r ids acc w).2.store = w.store
  | [], _, _ => rfl
  | d :: rest, acc, w => by
    rw [checkinLoop_cons]
    cases hf : h.r.FindDogrunCheckin w.store c r d with
    | error err => rfl
    | ok found =>
      simp only []
      rw [checkinLoop_store h c r rest]
      rfl

/-- When every lookup succeeds the loop returns the kept records in the order of
the dogs, having made one lookup per dog. -/
theorem checkinLoop_ok {σ : Type} (h : checkInOutHandler σ) (c : Context) (r : Int) :
    ∀ (ids : List Int) (acc : List DogrunCheckin) (w : World σ),
      (∀ d ∈ ids, h.lookupOk c w.store r d) →
      h.checkinLoop c r ids acc w =
        (.ok (acc ++ ids.map (h.recordFor c w.store r)),
          ⟨w.store, w.calls ++ ids.map (Call.FindDogrunCheckin r)⟩)
  | [], acc, w, _ => by
    simp [checkInOutHandler.checkinLoop]
  | d :: rest, acc, w, hok => by
    obtain ⟨found, hfound⟩ := hok d (List.mem_cons_self _ _)
    have hrest : ∀ x ∈ rest, h.lookupOk c (w.log (.FindDogrunCheckin r d)).store r x :=
      fun x hx => hok x (List.mem_cons_of_mem _ hx)
    rw [checkinLoop_cons, hfound]
    simp only []
    rw [checkinLoop_ok h c r rest _ _ hrest]
    simp [World.log, checkInOutHandler.recordFor, hfound]

/-- When the lookup of `d` is the first to fail the loop returns its error, having
made the lookups up to and including that of `d`. -/
theorem checkinLoop_fail {σ : Type} (h : checkInOutHandler σ) (c : Context) (r d : Int)
    (post : List Int) (err : WRError) :
    ∀ (pre : List Int) (acc : List DogrunCheckin) (w : World σ),
      (∀ x ∈ pre, h.lookupOk c w.store r x) →
      h.r.FindDogrunCheckin w.store c r d = .error err →
      h.checkinLoop c r (pre ++ d :: post) acc w =
        (.error err, ⟨w.store, w.calls ++ (pre ++ [d]).map (Call.FindDogrunCheckin r)⟩)
  | [], acc, w, _, hd => by
    rw [List.nil_append, checkinLoop_cons, hd]
    simp [World.log]
  | x :: pre, acc, w, hok, hd => by
    obtain ⟨found, hfound⟩ := hok x (List.mem_cons_self _ _)
    have hrest : ∀ y ∈ pre, h.lookupOk c (w.log (.FindDogrunCheckin r x)).store r y :=
      fun y hy => hok y (List.mem_cons_of_mem _ hy)
    have hd' : h.r.FindDogrunCheckin (w.log (.FindDogrunCheckin r x)).store c r d =
        .error err := hd
    rw [List.cons_append, checkinLoop_cons, hfound]
    simp only []
    rw [checkinLoop_fail h c r d post err pre _ _ hrest hd']
    simp [World.log]

/-- Either every lookup succeeds or there is a first one that fails. -/
theorem lookups_ok_or_first_fail {σ : Type} (h : checkInOutHandler σ) (c : Context) (s : σ)
    (r : Int) :
    ∀ ids : List Int, (∀ d ∈ ids, h.lookupOk c s r d) ∨
      ∃ pre d post err, ids = pre ++ d :: post ∧ (∀ x ∈ pre, h.lookupOk c s r x) ∧
        h.r.FindDogrunCheckin s c r d = .error err
  | [] => Or.inl (by simp)
  | x :: rest => by
    cases hx : h.r.FindDogrunCheckin s c r x with
    | error err => exact Or.inr ⟨[], x, rest, err, rfl, by simp, hx⟩
    | ok found =>
      rcases lookups_ok_or_first_fail h c s r rest with hall | ⟨pre, d, post, err, he, hp, hd⟩
      · left
        intro d hd
        rcases List.mem_cons.mp hd with e | e
        · exact e ▸ ⟨found, hx⟩
        · exact hall d e
      · right
        refine ⟨x :: pre, d, post, err, by simp [he], ?_, hd⟩
        intro y hy
        rcases List.mem_cons.mp hy with e | e
        · exact e ▸ ⟨found, hx⟩
        · exact hp y e

/-! ## The four ways `CheckinDogrun` runs -/

theorem checkinDogrun_no_dogrun {σ : Type} (h : checkInOutHandler σ) (c : Context)
    (r : Int) (dogIDs : List Int) (w : World σ) (err : WRError)
    (hr : h.drf.CheckDogrunExistByIDs c [r] = some err) :
    h.CheckinDogrun c ⟨r, dogIDs⟩ w =
      (some err, ⟨w.store, w.calls ++ [.CheckDogrunExistByIDs [r]]⟩) := by
  simp [checkInOutHandler.CheckinDogrun, hr, World.log]

theorem checkinDogrun_not_owner {σ : Type} (h : checkInOutHandler σ) (c : Context)
    (r : Int) (dogIDs : List Int) (w : World σ) (err : WRError)
    (hr : h.drf.CheckDogrunExistByIDs c [r] = none)
    (ho : h.df.CheckDogownerValid c dogIDs = some err) :
    h.CheckinDogrun c ⟨r, dogIDs⟩ w =
      (some err, ⟨w.store,
        w.calls ++ [.CheckDogrunExistByIDs [r], .CheckDogownerValid dogIDs]⟩) := by
  simp [checkInOutHandler.CheckinDogrun, hr, ho, World.log]

theorem checkinDogrun_lookup_fail {σ : Type} (h : checkInOutHandler σ) (c : Context)
    (r : Int) (pre : List Int) (d : Int) (post : List Int) (w : World σ) (err : WRError)
    (hr : h.drf.CheckDogrunExistByIDs c [r] = none)
    (ho : h.df.CheckDogownerValid c (pre ++ d :: post) = none)
    (hpre : ∀ x ∈ pre, h.lookupOk c w.store r x)
    (hd : h.r.FindDogrunCheckin w.store c r d = .error err) :
    h.CheckinDogrun c ⟨r, pre ++ d :: post⟩ w =
      (some err, ⟨w.store,
        w.calls ++ ([.CheckDogrunExistByIDs [r], .CheckDogownerValid (pre ++ d :: post)] ++
          (pre ++ [d]).map (Call.FindDogrunCheckin r))⟩) := by
  have hloop := checkinLoop_fail h c r d post err pre []
    ((w.log (.CheckDogrunExistByIDs [r])).log (.CheckDogownerValid (pre ++ d :: post))) hpre hd
  simp only [checkInOutHandler.CheckinDogrun, hr, ho, hloop]
  simp [World.log]

theorem checkinDogrun_saved {σ : Type} (h : checkInOutHandler σ) (c : Context)
    (r : Int) (dogIDs : List Int) (w : World σ)
    (hr : h.drf.CheckDogrunExistByIDs c [r] = none)
    (ho : h.df.CheckDogownerValid c dogIDs = none)
    (hok : ∀ d ∈ dogIDs, h.lookupOk c w.store r d) :
    h.CheckinDogrun c ⟨r, dogIDs⟩ w =
      ((match (h.r.SaveDogrunCheckins w.store c (dogIDs.map (h.recordFor c w.store r))).1 with
        | .error err => some err
        | .ok _ => none),
       ⟨(h.r.SaveDogrunCheckins w.store c (dogIDs.map (h.recordFor c w.store r))).2,
        w.calls ++ ([.CheckDogrunExistByIDs [r], .CheckDogownerValid dogIDs] ++
          dogIDs.map (Call.FindDogrunCheckin r) ++
          [.SaveDogrunCheckins (dogIDs.map (h.recordFor c w.store r))])⟩) := by
  have hloop := checkinLoop_ok h c r dogIDs []
    ((w.log (.CheckDogrunExistByIDs [r])).log (.CheckDogownerValid dogIDs)) hok
  simp only [checkInOutHandler.CheckinDogrun, hr, ho, hloop]
  simp only [World.log, List.nil_append]
  rcases hs : h.r.SaveDogrunCheckins w.store c (dogIDs.map (h.recordFor c w.store r)) with ⟨e, s'⟩
  cases e <;> simp

theorem callsSince_append {σ : Type} (w : World σ) (s : σ) (new : List Call) :
    callsSince w ⟨s, w.calls ++ new⟩ = new := by
  simp [callsSince]

theorem countP_isSave_map_find (r : Int) (ids : List Int) :
    (ids.map (Call.FindDogrunCheckin r)).countP Call.isSaveDogrunCheckins = 0 := by
  induction ids with
  | nil => rfl
  | cons d rest ih => simp [List.countP_cons, Call.isSaveDogrunCheckins]

/-! ## Claims on the check-in handler, any repository -/

/-- C6: for any repository, if the existence facade rejects `[dogrunID]` with
`err`, or accepts it and the ownership facade rejects `dogIDs` with `err`,
`CheckinDogrun` returns `err`, the store is the store before the call, the only
calls made are the facade checks, and no call reaches the repository: neither
`FindDogrunCheckin` nor `SaveDogrunCheckins` is invoked. -/
theorem C6_checkin_preconditions {σ : Type} (h : checkInOutHandler σ) (c : Context)
    (dogrunID : Int) (dogIDs : List Int) (w : World σ) (err : WRError)
    (hrej : h.drf.CheckDogrunExistByIDs c [dogrunID] = some err ∨
      (h.drf.CheckDogrunExistByIDs c [dogrunID] = none ∧
        h.df.CheckDogownerValid c dogIDs = some err)) :
    (h.CheckinDogrun c ⟨dogrunID, dogIDs⟩ w).1 = some err ∧
    (h.CheckinDogrun c ⟨dogrunID, dogIDs⟩ w).2.store = w.store ∧
    ((h.CheckinDogrun c ⟨dogrunID, dogIDs⟩ w).2.calls =
        w.calls ++ [.CheckDogrunExistByIDs [dogrunID]] ∨
      (h.CheckinDogrun c ⟨dogrunID, dogIDs⟩ w).2.calls =
        w.calls ++ [.CheckDogrunExistByIDs [dogrunID], .CheckDogownerValid dogIDs]) ∧
    (callsSince w (h.CheckinDogrun c ⟨dogrunID, dogIDs⟩ w).2).countP Call.isRepository = 0 := by
  rcases hrej with hr | ⟨hr, ho⟩
  · rw [checkinDogrun_no_dogrun h c dogrunID dogIDs w err hr, callsSince_append]
    exact ⟨rfl, rfl, Or.inl rfl, by simp [List.countP_cons, Call.isRepository]⟩
  · rw [checkinDogrun_not_owner h c dogrunID dogIDs w err hr ho, callsSince_append]
    exact ⟨rfl, rfl, Or.inr rfl, by simp [List.countP_cons, Call.isRepository]⟩

/-- C9: for any repository, when both facades accept and every lookup succeeds,
`SaveDogrunCheckins` is called on a collection of exactly `len(dogIDs)` records
in the order of `dogIDs`; the record at position `i`, for the result `found` of
the lookup of `dogIDs[i]`, is (a) `found` itself when `found` is non-empty and
(b) otherwise `found` with `DogrunID` set to `dogrunID` and `DogID` set to
`dogIDs[i]`: it has no identifier, and when the lookup yielded the zero record
(as the in-memory repository does for a pair without record) every other field
is empty. -/
theorem C9_per_dog_resolution {σ : Type} (h : checkInOutHandler σ) (c : Context)
    (dogrunID : Int) (dogIDs : List Int) (w : World σ)
    (hr : h.drf.CheckDogrunExistByIDs c [dogrunID] = none)
    (ho : h.df.CheckDogownerValid c dogIDs = none)
    (hok : ∀ d ∈ dogIDs, ∃ found, h.r.FindDogrunCheckin w.store c dogrunID d = .ok found) :
    ∃ saveCheckins : List DogrunCheckin,
      callsSince w (h.CheckinDogrun c ⟨dogrunID, dogIDs⟩ w).2 =
        [.CheckDogrunExistByIDs [dogrunID], .CheckDogownerValid dogIDs] ++
          dogIDs.map (Call.FindDogrunCheckin dogrunID) ++ [.SaveDogrunCheckins saveCheckins] ∧
      (h.CheckinDogrun c ⟨dogrunID, dogIDs⟩ w).2.store =
        (h.r.SaveDogrunCheckins w.store c saveCheckins).2 ∧
      saveCheckins.length = dogIDs.length ∧
      (∀ (i : Nat) (d : Int) (found : DogrunCheckin), dogIDs[i]? = some d →
        h.r.FindDogrunCheckin w.store c dogrunID d = .ok found →
        (found.IsEmpty = false → saveCheckins[i]? = some found) ∧
        (found.IsEmpty = true →
          saveCheckins[i]? = some { found with DogrunID := some dogrunID, DogID := some d } ∧
          (found = {} → saveCheckins[i]? = some { DogrunID := some dogrunID, DogID := some d }))) ∧
      (∀ (s : CheckinStore) (d : Int),
        (memCheckInOutRepository.FindDogrunCheckin s c dogrunID d =
            .ok (s.find dogrunID d)) ∧
        ((s.find dogrunID d).IsEmpty = true → s.find dogrunID d = {})) := by
  refine ⟨dogIDs.map (h.recordFor c w.store dogrunID), ?_, ?_, by simp, ?_, ?_⟩
  · rw [checkinDogrun_saved h c dogrunID dogIDs w hr ho hok, callsSince_append]
  · rw [checkinDogrun_saved h c dogrunID dogIDs w hr ho hok]
  · intro i d found hi hfound
    have hrec : (dogIDs.map (h.recordFor c w.store dogrunID))[i]? =
        some (checkinRecordOf dogrunID d found) := by
      simp [List.getElem?_map, hi, checkInOutHandler.recordFor, hfound]
    rw [hrec]
    refine ⟨fun he => by simp [checkinRecordOf, he], fun he => ⟨?_, fun hz => ?_⟩⟩
    · simp [checkinRecordOf, he, NewSqlNullInt64]
    · subst hz
      simp [checkinRecordOf, DogrunCheckin.IsEmpty, NewSqlNullInt64]
  · intro s d
    refine ⟨rfl, ?_⟩
    unfold CheckinStore.find
    cases findRow (CheckinRow.isFor dogrunID d s.today) 1 s.rows with
    | none => simp
    | some p => simp [CheckinRow.toModel, DogrunCheckin.IsEmpty]

/-- C10: for any repository, in every run of `CheckinDogrun` the bulk upsert
`SaveDogrunCheckins` is called at most once, and exactly once iff both facades
accept and every `FindDogrunCheckin` lookup succeeds; when the lookup of some
`dogIDs[i]` is the first to fail, the call returns that lookup's error and the
store is the store before the call, although the lookups before position `i`
succeeded; and whenever some lookup of the batch fails, the call fails and the
store is the store before the call. -/
theorem C10_single_bulk_upsert {σ : Type} (h : checkInOutHandler σ) (c : Context)
    (dogrunID : Int) (dogIDs : List Int) (w : World σ) :
    (callsSince w (h.CheckinDogrun c ⟨dogrunID, dogIDs⟩ w).2).countP
        Call.isSaveDogrunCheckins ≤ 1 ∧
    ((callsSince w (h.CheckinDogrun c ⟨dogrunID, dogIDs⟩ w).2).countP
        Call.isSaveDogrunCheckins = 1 ↔
      (h.drf.CheckDogrunExistByIDs c [dogrunID] = none ∧
        h.df.CheckDogownerValid c dogIDs = none ∧
        ∀ d ∈ dogIDs, ∃ found, h.r.FindDogrunCheckin w.store c dogrunID d = .ok found)) ∧
    (∀ (pre : List Int) (d : Int) (post : List Int) (err : WRError),
      dogIDs = pre ++ d :: post →
      h.drf.CheckDogrunExistByIDs c [dogrunID] = none →
      h.df.CheckDogownerValid c dogIDs = none →
      (∀ x ∈ pre, ∃ found, h.r.FindDogrunCheckin w.store c dogrunID x = .ok found) →
      h.r.FindDogrunCheckin w.store c dogrunID d = .error err →
      (h.CheckinDogrun c ⟨dogrunID, dogIDs⟩ w).1 = some err ∧
        (h.CheckinDogrun c ⟨dogrunID, dogIDs⟩ w).2.store = w.store) ∧
    (∀ (d : Int) (err : WRError), d ∈ dogIDs →
      h.drf.CheckDogrunExistByIDs c [dogrunID] = none →
      h.df.CheckDogownerValid c dogIDs = none →
      h.r.FindDogrunCheckin w.store c dogrunID d = .error err →
      (h.CheckinDogrun c ⟨dogrunID, dogIDs⟩ w).1.isSome = true ∧
        (h.CheckinDogrun c ⟨dogrunID, dogIDs⟩ w).2.store = w.store) := by
  have hthird : ∀ (pre : List Int) (d : Int) (post : List Int) (err : WRError),
      dogIDs = pre ++ d :: post →
      h.drf.CheckDogrunExistByIDs c [dogrunID] = none →
      h.df.CheckDogownerValid c dogIDs = none →
      (∀ x ∈ pre, ∃ found, h.r.FindDogrunCheckin w.store c dogrunID x = .ok found) →
      h.r.FindDogrunCheckin w.store c dogrunID d = .error err →
      (h.CheckinDogrun c ⟨dogrunID, dogIDs⟩ w).1 = some err ∧
        (h.CheckinDogrun c ⟨dogrunID, dogIDs⟩ w).2.store = w.store := by
    intro pre d post err he hr ho hpre hd
    subst he
    rw [checkinDogrun_lookup_fail h c dogrunID pre d post w err hr ho hpre hd]
    exact ⟨rfl, rfl⟩
  have hfourth : ∀ (d : Int) (err : WRError), d ∈ dogIDs →
      h.drf.CheckDogrunExistByIDs c [dogrunID] = none →
      h.df.CheckDogownerValid c dogIDs = none →
      h.r.FindDogrunCheckin w.store c dogrunID d = .error err →
      (h.CheckinDogrun c ⟨dogrunID, dogIDs⟩ w).1.isSome = true ∧
        (h.CheckinDogrun c ⟨dogrunID, dogIDs⟩ w).2.store = w.store := by
    intro d err hmem hr ho hd
    rcases lookups_ok_or_first_fail h c w.store dogrunID dogIDs with
      hall | ⟨pre, x, post, err', he, hpre, hx⟩
    · obtain ⟨found, hf⟩ := hall d hmem
      rw [hd] at hf
      cases hf
    · obtain ⟨h1, h2⟩ := hthird pre x post err' he hr ho hpre hx
      exact ⟨by rw [h1]; rfl, h2⟩
  refine ⟨?_, ?_, hthird, hfourth⟩
  · cases hr : h.drf.CheckDogrunExistByIDs c [dogrunID] with
    | some err =>
      rw [checkinDogrun_no_dogrun h c dogrunID dogIDs w err hr, callsSince_append]
      simp [List.countP_cons, Call.isSaveDogrunCheckins]
    | none =>
      cases ho : h.df.CheckDogownerValid c dogIDs with
      | some err =>
        rw [checkinDogrun_not_owner h c dogrunID dogIDs w err hr ho, callsSince_append]
        simp [List.countP_cons, Call.isSaveDogrunCheckins]
      | none =>
        rcases lookups_ok_or_first_fail h c w.store dogrunID dogIDs with
          hall | ⟨pre, d, post, err, he, hpre, hd⟩
        · rw [checkinDogrun_saved h c dogrunID dogIDs w hr ho hall, callsSince_append,
            List.countP_append, List.countP_append, countP_isSave_map_find]
          exact Nat.le_refl 1
        · subst he
          rw [checkinDogrun_lookup_fail h c dogrunID pre d post w err hr ho hpre hd,
            callsSince_append, List.countP_append, countP_isSave_map_find]
          exact Nat.zero_le 1
  · cases hr : h.drf.CheckDogrunExistByIDs c [dogrunID] with
    | some err =>
      rw [checkinDogrun_no_dogrun h c dogrunID dogIDs w err hr, callsSince_append]
      simp [List.countP_cons, Call.isSaveDogrunCheckins]
    | none =>
      cases ho : h.df.CheckDogownerValid c dogIDs with
      | some err =>
        rw [checkinDogrun_not_owner h c dogrunID dogIDs w err hr ho, callsSince_append]
        simp [List.countP_cons, Call.isSaveDogrunCheckins]
      | none =>
        rcases lookups_ok_or_first_fail h c w.store dogrunID dogIDs with
          hall | ⟨pre, d, post, err, he, hpre, hd⟩
        · rw [checkinDogrun_saved h c dogrunID dogIDs w hr ho hall, callsSince_append,
            List.countP_append, List.countP_append, countP_isSave_map_find]
          exact ⟨fun _ => ⟨rfl, rfl, hall⟩, fun _ => rfl⟩
        · subst he
          rw [checkinDogrun_lookup_fail h c dogrunID pre d post w err hr ho hpre hd,
            callsSince_append, List.countP_append, countP_isSave_map_find]
          constructor
          · intro h0
            cases h0
          · intro hall
            obtain ⟨found, hf⟩ := hall.2.2 d (by simp)
            rw [hd] at hf
            cases hf

/-- C10 at a repository whose lookup of dog 11 fails and the request 10, 11, 12:
the call returns the lookup's error and stores nothing, not even for dog 10. -/
theorem C10_single_bulk_upsert_witness :
    failingCheckInOutHandler.r.FindDogrunCheckin noCheckins (contextOf 1) 5 11 =
      .error lookupError ∧
    (failingCheckInOutHandler.CheckinDogrun (contextOf 1) ⟨5, [10, 11, 12]⟩
      ⟨noCheckins, []⟩).1 = some lookupError ∧
    (failingCheckInOutHandler.CheckinDogrun (contextOf 1) ⟨5, [10, 11, 12]⟩
      ⟨noCheckins, []⟩).2.store = noCheckins ∧
    (callsSince ⟨noCheckins, []⟩
      (failingCheckInOutHandler.CheckinDogrun (contextOf 1) ⟨5, [10, 11, 12]⟩
        ⟨noCheckins, []⟩).2).countP Call.isSaveDogrunCheckins ≤ 1 := by
  have h := C10_single_bulk_upsert failingCheckInOutHandler (contextOf 1) 5 [10, 11, 12]
    ⟨noCheckins, []⟩
  have hfail := h.2.2.1 [10] 11 [12] lookupError rfl (by decide) (by decide)
    (fun x hx => ⟨noCheckins.find 5 x, by
      have hx' : x = 10 := by simpa using hx
      subst hx'
      rfl⟩) rfl
  exact ⟨rfl, hfail.1, hfail.2, h.1⟩

/-! ## The in-memory check-in store -/

theorem set_eq_self_of_getElem? {α : Type} :
    ∀ (l : List α) (i : Nat) (a : α), l[i]? = some a → l.set i a = l
  | [], _, _, h => by simp at h
  | x :: rest, 0, a, h => by
    simp only [List.getElem?_cons_zero, Option.some.injEq] at h
    simp [h]
  | x :: rest, i + 1, a, h => by
    simp only [List.getElem?_cons_succ] at h
    simp [set_eq_self_of_getElem? rest i a h]

theorem findRow_none_iff (p : CheckinRow → Bool) :
    ∀ (k : Nat) (rows : List CheckinRow),
      findRow p k rows = none ↔ ∀ row ∈ rows, p row = false
  | _, [] => by simp [findRow]
  | k, row :: rest => by
    unfold findRow
    cases hp : p row with
    | true => simp [hp]
    | false => simp [hp, findRow_none_iff p (k + 1) rest]

theorem findRow_some (p : CheckinRow → Bool) :
    ∀ (k : Nat) (rows : List CheckinRow) (id : Nat) (row : CheckinRow),
      findRow p k rows = some (id, row) →
      k ≤ id ∧ rows[id - k]? = some row ∧ p row = true
  | _, [], _, _, h => by simp [findRow] at h
  | k, x :: rest, id, row, h => by
    unfold findRow at h
    cases hp : p x with
    | true =>
      simp only [hp, if_true, Option.some.injEq, Prod.mk.injEq] at h
      obtain ⟨h1, h2⟩ := h
      subst h1; subst h2
      simp [hp]
    | false =>
      simp only [hp] at h
      have ih := findRow_some p (k + 1) rest id row (by simpa using h)
      obtain ⟨h1, h2, h3⟩ := ih
      refine ⟨by omega, ?_, h3⟩
      have hk : id - k = (id - (k + 1)) + 1 := by omega
      rw [hk, List.getElem?_cons_succ]
      exact h2

theorem findRow_cons (p : CheckinRow → Bool) (k : Nat) (x : CheckinRow)
    (rest : List CheckinRow) :
    findRow p k (x :: rest) = if p x then some (k, x) else findRow p (k + 1) rest := rfl

theorem findRow_append (p : CheckinRow → Bool) (extra : List CheckinRow) :
    ∀ (k : Nat) (rows : List CheckinRow),
      findRow p k (rows ++ extra) =
        match findRow p k rows with
        | some x => some x
        | none => findRow p (k + rows.length) extra
  | k, [] => by simp [findRow]
  | k, x :: rest => by
    rw [List.cons_append, findRow_cons, findRow_cons]
    cases hp : p x with
    | true => simp
    | false =>
      simp only [Bool.false_eq_true, if_false]
      rw [findRow_append p extra (k + 1) rest]
      have hk : k + 1 + rest.length = k + (x :: rest).length := by
        simp only [List.length_cons]; omega
      rw [hk]

theorem CheckinStore.find_isEmpty (s : CheckinStore) (r d : Int) :
    (s.find r d).IsEmpty = !(s.rows.any (CheckinRow.isFor r d s.today)) := by
  unfold CheckinStore.find
  cases hf : findRow (CheckinRow.isFor r d s.today) 1 s.rows with
  | none =>
    have h := (findRow_none_iff _ 1 s.rows).mp hf
    have h2 : s.rows.any (CheckinRow.isFor r d s.today) = false := by
      rw [List.any_eq_false]
      intro x hx
      simp [h x hx]
    simp [DogrunCheckin.IsEmpty, h2]
  | some p =>
    obtain ⟨id, row⟩ := p
    obtain ⟨_, h2, h3⟩ := findRow_some _ 1 s.rows id row hf
    have h4 : s.rows.any (CheckinRow.isFor r d s.today) = true := by
      rw [List.any_eq_true]
      exact ⟨row, (List.mem_iff_getElem?.mpr ⟨_, h2⟩), h3⟩
    simp [DogrunCheckin.IsEmpty, CheckinRow.toModel, h4]

theorem CheckinStore.find_of_isEmpty (s : CheckinStore) (r d : Int)
    (h : (s.find r d).IsEmpty = true) : s.find r d = {} := by
  unfold CheckinStore.find at h ⊢
  cases hf : findRow (CheckinRow.isFor r d s.today) 1 s.rows with
  | none => rfl
  | some p => simp [hf, DogrunCheckin.IsEmpty, CheckinRow.toModel] at h

/-- Upserting a record a lookup found writes the found row back where it is. -/
theorem CheckinStore.upsert_found (rows : List CheckinRow) (today : Nat) (id : Nat)
    (row : CheckinRow) (hid : 1 ≤ id) (hrow : rows[id - 1]? = some row) :
    ((⟨rows, today⟩ : CheckinStore).upsert (row.toModel id)).2 = ⟨rows, today⟩ := by
  have hlt : id - 1 < rows.length := by
    by_contra hge
    rw [List.getElem?_eq_none (by omega)] at hrow
    cases hrow
  have hcond : (1 : Int) ≤ (id : Int) ∧ (id : Int) ≤ (rows.length : Int) := by
    constructor <;> omega
  have hidx : ((id : Int) - 1).toNat = id - 1 := by omega
  have hback : (row.toModel id).toRow = row := rfl
  have hID : (row.toModel id).DogrunCheckinID = some (id : Int) := rfl
  unfold CheckinStore.upsert
  simp only [hID, hcond, and_self, if_true]
  rw [hback, hidx, set_eq_self_of_getElem? rows (id - 1) row hrow]

/-- Upserting the record kept for a dog without check-in appends its row. -/
theorem CheckinStore.upsert_new (rows : List CheckinRow) (today : Nat) (r d : Int) :
    ((⟨rows, today⟩ : CheckinStore).upsert (checkinRecordOf r d {})).2 =
      ⟨rows ++ [newCheckinRow r today d], today⟩ := by
  simp [CheckinStore.upsert, checkinRecordOf, DogrunCheckin.IsEmpty, NewSqlNullInt64,
    DogrunCheckin.toRow, newCheckinRow]

/-- A lookup yields either the zero record or a stored row with its identifier. -/
theorem CheckinStore.find_cases (s : CheckinStore) (r d : Int) :
    ((s.find r d).IsEmpty = true ∧ s.find r d = {}) ∨
    ((s.find r d).IsEmpty = false ∧
      ∃ (id : Nat) (row : CheckinRow), 1 ≤ id ∧ s.rows[id - 1]? = some row ∧
        s.find r d = row.toModel id) := by
  cases he : (s.find r d).IsEmpty with
  | true => exact Or.inl ⟨rfl, s.find_of_isEmpty r d he⟩
  | false =>
    right
    refine ⟨rfl, ?_⟩
    unfold CheckinStore.find at he ⊢
    cases hf : findRow (CheckinRow.isFor r d s.today) 1 s.rows with
    | none => simp [hf, DogrunCheckin.IsEmpty] at he
    | some p =>
      obtain ⟨id, row⟩ := p
      obtain ⟨h1, h2, _⟩ := findRow_some _ 1 s.rows id row hf
      exact ⟨id, row, h1, h2, rfl⟩

theorem CheckinStore.save_nil (s : CheckinStore) : (s.save []).2 = s := rfl

theorem CheckinStore.save_cons (s : CheckinStore) (x : DogrunCheckin) (rest : List DogrunCheckin) :
    (s.save (x :: rest)).2 = ((s.upsert x).2.save rest).2 := rfl

theorem CheckinStore.absentDogs_cons (s : CheckinStore) (r d : Int) (rest : List Int) :
    s.absentDogs r (d :: rest) =
      if (s.find r d).IsEmpty = true then d :: s.absentDogs r rest else s.absentDogs r rest := by
  simp [CheckinStore.absentDogs, List.filter_cons]

/-- The bulk upsert of the records kept for `ds` leaves every stored row as it is
and appends one row per dog without check-in. -/
theorem CheckinStore.save_records (s : CheckinStore) (r : Int) :
    ∀ (ds : List Int) (extra : List CheckinRow),
      ((⟨s.rows ++ extra, s.today⟩ : CheckinStore).save
          (ds.map (fun d => checkinRecordOf r d (s.find r d)))).2 =
        ⟨s.rows ++ extra ++ (s.absentDogs r ds).map (newCheckinRow r s.today), s.today⟩
  | [], extra => by simp [CheckinStore.save_nil, CheckinStore.absentDogs]
  | d :: rest, extra => by
    rw [List.map_cons, CheckinStore.save_cons, CheckinStore.absentDogs_cons]
    rcases s.find_cases r d with ⟨he, hz⟩ | ⟨he, id, row, h1, h2, hf⟩
    · rw [hz, CheckinStore.upsert_new]
      have ih := CheckinStore.save_records s r rest (extra ++ [newCheckinRow r s.today d])
      rw [← List.append_assoc] at ih
      rw [ih]
      rw [hz] at he
      simp [he]
    · have hrec : checkinRecordOf r d (s.find r d) = row.toModel id := by
        unfold checkinRecordOf
        rw [he, hf]
        rfl
      have hlt : id - 1 < s.rows.length := by
        by_contra hge
        rw [List.getElem?_eq_none (by omega)] at h2
        cases h2
      have h2' : (s.rows ++ extra)[id - 1]? = some row := by
        rw [List.getElem?_append_left hlt]
        exact h2
      rw [hrec, CheckinStore.upsert_found (s.rows ++ extra) s.today id row h1 h2']
      rw [CheckinStore.save_records s r rest extra]
      simp [he]

theorem checkinDogrun_mem (drf : IDogrunFacade) (df : IDogFacade) (c : Context) (r : Int)
    (dogIDs : List Int) (s : CheckinStore) (calls : List Call)
    (hr : drf.CheckDogrunExistByIDs c [r] = none)
    (ho : df.CheckDogownerValid c dogIDs = none) :
    ((memCheckInOutHandler drf df).CheckinDogrun c ⟨r, dogIDs⟩ ⟨s, calls⟩).1 = none ∧
    ((memCheckInOutHandler drf df).CheckinDogrun c ⟨r, dogIDs⟩ ⟨s, calls⟩).2.store =
      ⟨s.rows ++ (s.absentDogs r dogIDs).map (newCheckinRow r s.today), s.today⟩ := by
  have hok : ∀ d ∈ dogIDs, (memCheckInOutHandler drf df).lookupOk c s r d :=
    fun d _ => ⟨s.find r d, rfl⟩
  have hrun := checkinDogrun_saved (memCheckInOutHandler drf df) c r dogIDs ⟨s, calls⟩ hr ho hok
  rw [hrun]
  have hrec : (memCheckInOutHandler drf df).recordFor c s r =
      fun d => checkinRecordOf r d (s.find r d) := rfl
  have hsave := CheckinStore.save_records s r dogIDs []
  rw [List.append_nil] at hsave
  refine ⟨rfl, ?_⟩
  simp only [hrec]
  exact hsave

/-! ## Uniqueness and idempotence of check-ins -/

theorem CheckinStore.checkin_count_pos_iff (s : CheckinStore) (r d : Int) :
    0 < s.count r d s.today ↔ (s.find r d).IsEmpty = false := by
  unfold CheckinStore.count
  rw [List.countP_pos_iff, s.find_isEmpty r d, Bool.not_eq_false', List.any_eq_true]

theorem CheckinStore.count_eq_zero_of_isEmpty (s : CheckinStore) (r d : Int)
    (h : (s.find r d).IsEmpty = true) : s.count r d s.today = 0 := by
  by_contra hne
  have hpos : 0 < s.count r d s.today := Nat.pos_of_ne_zero hne
  rw [s.checkin_count_pos_iff r d, h] at hpos
  cases hpos

theorem isFor_newCheckinRow (r r' d d' : Int) (today day : Nat) :
    CheckinRow.isFor r' d' day (newCheckinRow r today d) =
      (r == r' && d == d' && today == day) := by
  simp [CheckinRow.isFor, newCheckinRow]

theorem countP_newCheckinRows (r r' d' : Int) (today day : Nat) :
    ∀ l : List Int, (l.map (newCheckinRow r today)).countP (CheckinRow.isFor r' d' day) =
      if r = r' ∧ today = day then l.count d' else 0
  | [] => by simp
  | d :: rest => by
    rw [List.map_cons, List.countP_cons, countP_newCheckinRows r r' d' today day rest,
      isFor_newCheckinRow, List.count_cons]
    by_cases h1 : r = r' <;> by_cases h2 : today = day <;> by_cases h3 : d = d' <;>
      simp [h1, h2, h3]

theorem CheckinStore.mem_absentDogs (s : CheckinStore) (r d : Int) (dogIDs : List Int) :
    d ∈ s.absentDogs r dogIDs ↔ d ∈ dogIDs ∧ (s.find r d).IsEmpty = true := by
  simp [CheckinStore.absentDogs, List.mem_filter]

theorem CheckinStore.absentDogs_nodup (s : CheckinStore) (r : Int) (dogIDs : List Int)
    (hnd : dogIDs.Nodup) : (s.absentDogs r dogIDs).Nodup :=
  List.Nodup.sublist (List.filter_sublist _) hnd

theorem CheckinStore.count_after (s : CheckinStore) (r r' d' : Int) (day : Nat)
    (dogIDs : List Int) :
    (⟨s.rows ++ (s.absentDogs r dogIDs).map (newCheckinRow r s.today), s.today⟩ :
        CheckinStore).count r' d' day =
      s.count r' d' day +
        if r = r' ∧ s.today = day then (s.absentDogs r dogIDs).count d' else 0 := by
  unfold CheckinStore.count
  rw [List.countP_append, countP_newCheckinRows]

/-- Appending one new row per distinct dog without check-in keeps at most one
check-in per (dogrun, dog, day). -/
theorem CheckinStore.unique_after (s : CheckinStore) (r : Int) (dogIDs : List Int)
    (hu : s.Unique) (hnd : dogIDs.Nodup) :
    (⟨s.rows ++ (s.absentDogs r dogIDs).map (newCheckinRow r s.today), s.today⟩ :
        CheckinStore).Unique := by
  intro r' d' day
  rw [s.count_after]
  by_cases hk : r = r' ∧ s.today = day
  · simp only [hk, and_self, if_true]
    obtain ⟨h1, h2⟩ := hk
    subst h1; subst h2
    have hle : (s.absentDogs r dogIDs).count d' ≤ 1 :=
      List.nodup_iff_count_le_one.mp (s.absentDogs_nodup r dogIDs hnd) d'
    by_cases hmem : d' ∈ s.absentDogs r dogIDs
    · have hz := s.count_eq_zero_of_isEmpty r d' ((s.mem_absentDogs r d' dogIDs).mp hmem).2
      omega
    · have hz : (s.absentDogs r dogIDs).count d' = 0 := List.count_eq_zero_of_not_mem hmem
      have := hu r d' s.today
      omega
  · simp only [hk, if_false, Nat.add_zero]
    exact hu r' d' day

/-- A dog with a check-in today keeps the record the lookup finds when rows are
appended to the table. -/
theorem CheckinStore.find_append_of_found (s : CheckinStore) (r d : Int)
    (extra : List CheckinRow) (h : (s.find r d).IsEmpty = false) :
    (⟨s.rows ++ extra, s.today⟩ : CheckinStore).find r d = s.find r d := by
  unfold CheckinStore.find at h ⊢
  simp only []
  rw [findRow_append]
  cases hf : findRow (CheckinRow.isFor r d s.today) 1 s.rows with
  | none => simp [hf, DogrunCheckin.IsEmpty] at h
  | some p => rfl

/-- After the check-in of `dogIDs` every dog of `dogIDs` has a check-in today. -/
theorem CheckinStore.found_after (s : CheckinStore) (r d : Int) (dogIDs : List Int)
    (hd : d ∈ dogIDs) :
    ((⟨s.rows ++ (s.absentDogs r dogIDs).map (newCheckinRow r s.today), s.today⟩ :
        CheckinStore).find r d).IsEmpty = false := by
  rw [CheckinStore.find_isEmpty, Bool.not_eq_false', List.any_append, Bool.or_eq_true]
  cases he : (s.find r d).IsEmpty with
  | false =>
    left
    rw [s.find_isEmpty r d, Bool.not_eq_false'] at he
    exact he
  | true =>
    right
    rw [List.any_eq_true]
    refine ⟨newCheckinRow r s.today d, ?_, by simp [isFor_newCheckinRow]⟩
    exact List.mem_map.mpr ⟨d, (s.mem_absentDogs r d dogIDs).mpr ⟨hd, he⟩, rfl⟩

theorem CheckinStore.absentDogs_eq_nil (s : CheckinStore) (r : Int) (ds : List Int)
    (h : ∀ d ∈ ds, (s.find r d).IsEmpty = false) : s.absentDogs r ds = [] := by
  unfold CheckinStore.absentDogs
  rw [List.filter_eq_nil_iff]
  intro d hd
  simp [h d hd]

/-! ## Claims on the check-in handler, in-memory repository -/

/-- C8: over the in-memory store, where a lookup is non-empty exactly when the
store holds a check-in of the pair for today, a store with at most one check-in
per (dogrun, dog, day) still has at most one per key after `CheckinDogrun` on a
sequence of distinct dogs, whatever the facades answer; when they accept, the
rows stored before are all kept as they were and one row is appended per dog
without check-in today, so a dog with a check-in today keeps its record (same
lookup result, same count) instead of getting a second one. -/
theorem C8_checkin_unique (drf : IDogrunFacade) (df : IDogFacade) (c : Context)
    (dogrunID : Int) (dogIDs : List Int) (s : CheckinStore) (calls : List Call)
    (hu : s.Unique) (hnd : dogIDs.Nodup) :
    (∀ d : Int, (s.find dogrunID d).IsEmpty = false ↔ 0 < s.count dogrunID d s.today) ∧
    ((memCheckInOutHandler drf df).CheckinDogrun c ⟨dogrunID, dogIDs⟩ ⟨s, calls⟩).2.store.Unique ∧
    (drf.CheckDogrunExistByIDs c [dogrunID] = none → df.CheckDogownerValid c dogIDs = none →
      ((memCheckInOutHandler drf df).CheckinDogrun c ⟨dogrunID, dogIDs⟩ ⟨s, calls⟩).2.store.rows =
          s.rows ++ (s.absentDogs dogrunID dogIDs).map (newCheckinRow dogrunID s.today) ∧
      ∀ d ∈ dogIDs, (s.find dogrunID d).IsEmpty = false →
        ((memCheckInOutHandler drf df).CheckinDogrun c ⟨dogrunID, dogIDs⟩
            ⟨s, calls⟩).2.store.find dogrunID d = s.find dogrunID d ∧
        ((memCheckInOutHandler drf df).CheckinDogrun c ⟨dogrunID, dogIDs⟩
            ⟨s, calls⟩).2.store.count dogrunID d s.today = s.count dogrunID d s.today) := by
  refine ⟨fun d => (s.checkin_count_pos_iff dogrunID d).symm, ?_, ?_⟩
  · cases hr : drf.CheckDogrunExistByIDs c [dogrunID] with
    | some err =>
      rw [checkinDogrun_no_dogrun (memCheckInOutHandler drf df) c dogrunID dogIDs ⟨s, calls⟩ err hr]
      exact hu
    | none =>
      cases ho : df.CheckDogownerValid c dogIDs with
      | some err =>
        rw [checkinDogrun_not_owner (memCheckInOutHandler drf df) c dogrunID dogIDs ⟨s, calls⟩
          err hr ho]
        exact hu
      | none =>
        rw [(checkinDogrun_mem drf df c dogrunID dogIDs s calls hr ho).2]
        exact s.unique_after dogrunID dogIDs hu hnd
  · intro hr ho
    rw [(checkinDogrun_mem drf df c dogrunID dogIDs s calls hr ho).2]
    refine ⟨rfl, ?_⟩
    intro d _ hfound
    refine ⟨s.find_append_of_found dogrunID d _ hfound, ?_⟩
    rw [s.count_after]
    have hnotin : d ∉ s.absentDogs dogrunID dogIDs := by
      intro hmem
      have := ((s.mem_absentDogs dogrunID d dogIDs).mp hmem).2
      rw [hfound] at this
      cases this
    simp [List.count_eq_zero_of_not_mem hnotin]

/-- C5: over the in-memory repository, when the existence facade accepts
`[r]`, the ownership facade accepts `dogIDs` (distinct dogs) and `again`, and
every dog of `again` is in `dogIDs` (in particular `again = dogIDs`), running
`CheckinDogrun(r, dogIDs)` and then `CheckinDogrun(r, again)` on the same day
succeeds twice and leaves exactly the store of the first call: every dog of
`dogIDs` has a check-in today after the first call, the lookup yields the same
record, with the same identifier, after the second call, and, from a store with
at most one check-in per key, there is exactly one record for each key
`(r, d, today)`, `d` in `dogIDs`, after the first and after the second call. -/
theorem C5_checkin_idempotent (drf : IDogrunFacade) (df : IDogFacade) (c : Context)
    (r : Int) (dogIDs again : List Int) (s : CheckinStore) (calls : List Call)
    (hr : drf.CheckDogrunExistByIDs c [r] = none)
    (ho : df.CheckDogownerValid c dogIDs = none)
    (ho2 : df.CheckDogownerValid c again = none)
    (hnd : dogIDs.Nodup)
    (hsub : ∀ d ∈ again, d ∈ dogIDs) :
    ((memCheckInOutHandler drf df).CheckinDogrun c ⟨r, dogIDs⟩ ⟨s, calls⟩).1 = none ∧
    ((memCheckInOutHandler drf df).CheckinDogrun c ⟨r, again⟩
        ((memCheckInOutHandler drf df).CheckinDogrun c ⟨r, dogIDs⟩ ⟨s, calls⟩).2).1 = none ∧
    ((memCheckInOutHandler drf df).CheckinDogrun c ⟨r, again⟩
        ((memCheckInOutHandler drf df).CheckinDogrun c ⟨r, dogIDs⟩ ⟨s, calls⟩).2).2.store =
      ((memCheckInOutHandler drf df).CheckinDogrun c ⟨r, dogIDs⟩ ⟨s, calls⟩).2.store ∧
    (∀ d ∈ dogIDs,
      (((memCheckInOutHandler drf df).CheckinDogrun c ⟨r, dogIDs⟩
          ⟨s, calls⟩).2.store.find r d).IsEmpty = false ∧
      ((memCheckInOutHandler drf df).CheckinDogrun c ⟨r, again⟩
          ((memCheckInOutHandler drf df).CheckinDogrun c ⟨r, dogIDs⟩
            ⟨s, calls⟩).2).2.store.find r d =
        ((memCheckInOutHandler drf df).CheckinDogrun c ⟨r, dogIDs⟩
          ⟨s, calls⟩).2.store.find r d) ∧
    (s.Unique → ∀ d ∈ dogIDs,
      ((memCheckInOutHandler drf df).CheckinDogrun c ⟨r, dogIDs⟩
          ⟨s, calls⟩).2.store.count r d s.today = 1 ∧
      ((memCheckInOutHandler drf df).CheckinDogrun c ⟨r, again⟩
          ((memCheckInOutHandler drf df).CheckinDogrun c ⟨r, dogIDs⟩
            ⟨s, calls⟩).2).2.store.count r d s.today = 1) := by
  obtain ⟨hres1, hstore1⟩ := checkinDogrun_mem drf df c r dogIDs s calls hr ho
  have hfound : ∀ d ∈ dogIDs,
      (((memCheckInOutHandler drf df).CheckinDogrun c ⟨r, dogIDs⟩
          ⟨s, calls⟩).2.store.find r d).IsEmpty = false := by
    intro d hd
    rw [hstore1]
    exact s.found_after r d dogIDs hd
  have hsecond := checkinDogrun_mem drf df c r again
    ((memCheckInOutHandler drf df).CheckinDogrun c ⟨r, dogIDs⟩ ⟨s, calls⟩).2.store
    ((memCheckInOutHandler drf df).CheckinDogrun c ⟨r, dogIDs⟩ ⟨s, calls⟩).2.calls hr ho2
  have hsame : ((memCheckInOutHandler drf df).CheckinDogrun c ⟨r, again⟩
        ((memCheckInOutHandler drf df).CheckinDogrun c ⟨r, dogIDs⟩ ⟨s, calls⟩).2).2.store =
      ((memCheckInOutHandler drf df).CheckinDogrun c ⟨r, dogIDs⟩ ⟨s, calls⟩).2.store := by
    have h2 := hsecond.2
    rw [CheckinStore.absentDogs_eq_nil _ r again (fun d hd => hfound d (hsub d hd))] at h2
    simpa using h2
  refine ⟨hres1, hsecond.1, hsame, fun d hd => ⟨hfound d hd, by rw [hsame]⟩, ?_⟩
  intro hu d hd
  rw [hsame]
  refine ⟨?_, ?_⟩ <;>
  · have hle : ((memCheckInOutHandler drf df).CheckinDogrun c ⟨r, dogIDs⟩
        ⟨s, calls⟩).2.store.count r d s.today ≤ 1 := by
      rw [hstore1]
      exact s.unique_after r dogIDs hu hnd r d s.today
    have hpos : 0 < ((memCheckInOutHandler drf df).CheckinDogrun c ⟨r, dogIDs⟩
        ⟨s, calls⟩).2.store.count r d s.today := by
      have h := hfound d hd
      rw [hstore1] at h ⊢
      exact (CheckinStore.checkin_count_pos_iff _ r d).mpr h
    omega

theorem CheckinStore.checkins_unique_of_length_le_one (s : CheckinStore) (h : s.rows.length ≤ 1) :
    s.Unique :=
  fun _ _ _ => Nat.le_trans (List.countP_le_length _) h

/-! ## The check-in claims on the sample stores -/

/-- C5 at the scenario of the spec: caller 1 owns the dogs 10 and 11 and dogrun 5
exists; the check-in of 10 and 11 followed by the check-in of 10 leaves exactly
the records (5,10) and (5,11), and (5,10) keeps identifier 1. -/
theorem C5_checkin_idempotent_witness :
    sampleDogruns.CheckDogrunExistByIDs (contextOf 1) [5] = none ∧
    sampleDogs.CheckDogownerValid (contextOf 1) [10, 11] = none ∧
    sampleDogs.CheckDogownerValid (contextOf 1) [10] = none ∧
    ((memCheckInOutHandler sampleDogruns sampleDogs).CheckinDogrun (contextOf 1) ⟨5, [10, 11]⟩
      ⟨noCheckins, []⟩).2.store.rows = [newCheckinRow 5 3 10, newCheckinRow 5 3 11] ∧
    ((memCheckInOutHandler sampleDogruns sampleDogs).CheckinDogrun (contextOf 1) ⟨5, [10, 11]⟩
      ⟨noCheckins, []⟩).2.store.find 5 10 = (newCheckinRow 5 3 10).toModel 1 ∧
    ((memCheckInOutHandler sampleDogruns sampleDogs).CheckinDogrun (contextOf 1) ⟨5, [10]⟩
      ((memCheckInOutHandler sampleDogruns sampleDogs).CheckinDogrun (contextOf 1) ⟨5, [10, 11]⟩
        ⟨noCheckins, []⟩).2).2.store =
      ((memCheckInOutHandler sampleDogruns sampleDogs).CheckinDogrun (contextOf 1) ⟨5, [10, 11]⟩
        ⟨noCheckins, []⟩).2.store ∧
    ((memCheckInOutHandler sampleDogruns sampleDogs).CheckinDogrun (contextOf 1) ⟨5, [10]⟩
      ((memCheckInOutHandler sampleDogruns sampleDogs).CheckinDogrun (contextOf 1) ⟨5, [10, 11]⟩
        ⟨noCheckins, []⟩).2).2.store.find 5 10 = (newCheckinRow 5 3 10).toModel 1 :=
  ⟨by decide, by decide, by decide, by decide, by decide,
    (C5_checkin_idempotent sampleDogruns sampleDogs (contextOf 1) 5 [10, 11] [10] noCheckins []
      (by decide) (by decide) (by decide) (by decide) (by decide)).2.2.1,
    by decide⟩

/-- C6 at a request naming dog 12, which caller 1 does not own: nothing is
written for dog 10 either. -/
theorem C6_checkin_preconditions_witness :
    sampleDogruns.CheckDogrunExistByIDs (contextOf 1) [5] = none ∧
    sampleDogs.CheckDogownerValid (contextOf 1) [10, 12] =
      some (NewWRError none "dog not owned by the caller" NewDogClientErrorEType) ∧
    ((memCheckInOutHandler sampleDogruns sampleDogs).CheckinDogrun (contextOf 1) ⟨5, [10, 12]⟩
      ⟨noCheckins, []⟩).2.store = noCheckins :=
  ⟨by decide, by decide,
    (C6_checkin_preconditions (memCheckInOutHandler sampleDogruns sampleDogs) (contextOf 1) 5
      [10, 12] ⟨noCheckins, []⟩
      (NewWRError none "dog not owned by the caller" NewDogClientErrorEType)
      (Or.inr ⟨by decide, by decide⟩)).2.1⟩

/-- C8 at a store where dog 10 is checked in today and the request 10, 11. -/
theorem C8_checkin_unique_witness :
    sampleCheckins.Unique ∧
    ((memCheckInOutHandler sampleDogruns sampleDogs).CheckinDogrun (contextOf 1) ⟨5, [10, 11]⟩
      ⟨sampleCheckins, []⟩).2.store.Unique ∧
    ((memCheckInOutHandler sampleDogruns sampleDogs).CheckinDogrun (contextOf 1) ⟨5, [10, 11]⟩
      ⟨sampleCheckins, []⟩).2.store.rows = [newCheckinRow 5 3 10, newCheckinRow 5 3 11] :=
  ⟨sampleCheckins.checkins_unique_of_length_le_one (by decide),
    (C8_checkin_unique sampleDogruns sampleDogs (contextOf 1) 5 [10, 11] sampleCheckins []
      (sampleCheckins.checkins_unique_of_length_le_one (by decide)) (by decide)).2.1,
    by decide⟩

/-- C9 at a store where dog 10 is checked in today and the request 10, 11: the
collection saved is the stored record of dog 10 followed by a new record for
dog 11. -/
theorem C9_per_dog_resolution_witness :
    sampleDogruns.CheckDogrunExistByIDs (contextOf 1) [5] = none ∧
    sampleDogs.CheckDogownerValid (contextOf 1) [10, 11] = none ∧
    ((memCheckInOutHandler sampleDogruns sampleDogs).CheckinDogrun (contextOf 1) ⟨5, [10, 11]⟩
      ⟨sampleCheckins, []⟩).2.store =
      (memCheckInOutRepository.SaveDogrunCheckins sampleCheckins (contextOf 1)
        [(newCheckinRow 5 3 10).toModel 1, { DogrunID := some 5, DogID := some 11 }]).2 := by
  refine ⟨by decide, by decide, ?_⟩
  obtain ⟨saveCheckins, hcalls, hstore, -, -, -⟩ :=
    C9_per_dog_resolution (memCheckInOutHandler sampleDogruns sampleDogs) (contextOf 1) 5
      [10, 11] ⟨sampleCheckins, []⟩ (by decide) (by decide)
      (fun d _ => ⟨sampleCheckins.find 5 d, rfl⟩)
  have hrun : callsSince ⟨sampleCheckins, []⟩
      ((memCheckInOutHandler sampleDogruns sampleDogs).CheckinDogrun (contextOf 1) ⟨5, [10, 11]⟩
        ⟨sampleCheckins, []⟩).2 =
      [.CheckDogrunExistByIDs [5], .CheckDogownerValid [10, 11]] ++
        [10, 11].map (Call.FindDogrunCheckin 5) ++
        [.SaveDogrunCheckins
          [(newCheckinRow 5 3 10).toModel 1, { DogrunID := some 5, DogID := some 11 }]] := by
    decide
  rw [hrun] at hcalls
  have hsame : saveCheckins =
      [(newCheckinRow 5 3 10).toModel 1, { DogrunID := some 5, DogID := some 11 }] := by
    have h := List.append_cancel_left hcalls
    simpa using h.symm
  rw [← hsame]
  exact hstore

/-! ## Order of the calls in the bookmark handler -/

/-- Over any repository the `AddBookmark` loop calls only the repository. -/
theorem addBookmarkLoop_calls {σ : Type} (h : bookmarkHandler σ) (c : Context) (u : Int) :
    ∀ (ids acc : List Int) (w : World σ),
      ∃ repo : List Call, (h.addBookmarkLoop c u ids acc w).2.calls = w.calls ++ repo ∧
        repo.all Call.isRepository = true
  | [], acc, w => ⟨[], by simp [bookmarkHandler.addBookmarkLoop]⟩
  | d :: rest, acc, w => by
    rw [bookmarkHandler.addBookmarkLoop]
    simp only []
    cases hf : h.r.FindDogrunBookmark (w.log (.FindDogrunBookmark d u)).store c d u with
    | error err =>
      exact ⟨[.FindDogrunBookmark d u], by simp [World.log, Call.isRepository]⟩
    | ok bookmark =>
      simp only []
      cases hb : bookmark.IsNotEmpty with
      | true =>
        exact ⟨[.FindDogrunBookmark d u], by simp [World.log, Call.isRepository]⟩
      | false =>
        simp only [Bool.false_eq_true, if_false]
        rcases ha : h.r.AddBookmark
          ((w.log (.FindDogrunBookmark d u)).log (.AddBookmark d u)).store c d u with ⟨res, s'⟩
        cases res with
        | error err =>
          exact ⟨[.FindDogrunBookmark d u, .AddBookmark d u],
            by simp [World.log, Call.isRepository]⟩
        | ok id =>
          simp only []
          obtain ⟨repo, h1, h2⟩ := addBookmarkLoop_calls h c u rest (acc ++ [id])
            { (w.log (.FindDogrunBookmark d u)).log (.AddBookmark d u) with store := s' }
          refine ⟨[.FindDogrunBookmark d u, .AddBookmark d u] ++ repo, ?_, ?_⟩
          · rw [h1]
            simp [World.log]
          · simp [List.all_append, Call.isRepository, h2]

theorem callsSince_self_append {σ : Type} (w : World σ) (w1 : World σ) (new : List Call)
    (h : w1.calls = w.calls ++ new) : callsSince w w1 = new := by
  simp [callsSince, h]

/-- C11 (as stated) fails: for a request without verified identity naming the
dogruns 5 and 8, of which 8 does not exist, `AddBookmark` consults the existence
facade and returns the facade's error, not the identity failure; and for the
existing dogrun 5 alone it returns the identity failure only after it has
consulted the facade. -/
theorem C11_identity_first_counterexample :
    GetLoginUserID anonymousContext = .error noClaimsError ∧
    ((memBookmarkHandler sampleDogruns).AddBookmark anonymousContext ⟨[5, 8]⟩
      ⟨sampleBookmarks, []⟩).1 =
      .error (NewWRError none "dogrun not found: 8" NewDogrunClientErrorEType) ∧
    callsSince ⟨sampleBookmarks, []⟩
      ((memBookmarkHandler sampleDogruns).AddBookmark anonymousContext ⟨[5, 8]⟩
        ⟨sampleBookmarks, []⟩).2 = [.CheckDogrunExistByIDs [5, 8]] ∧
    ¬ (((memBookmarkHandler sampleDogruns).AddBookmark anonymousContext ⟨[5, 8]⟩
        ⟨sampleBookmarks, []⟩).1 = .error noClaimsError ∧
      (callsSince ⟨sampleBookmarks, []⟩
        ((memBookmarkHandler sampleDogruns).AddBookmark anonymousContext ⟨[5, 8]⟩
          ⟨sampleBookmarks, []⟩).2).countP Call.isCheckDogrunExistByIDs = 0) ∧
    ((memBookmarkHandler sampleDogruns).AddBookmark anonymousContext ⟨[5]⟩
      ⟨sampleBookmarks, []⟩).1 = .error noClaimsError ∧
    callsSince ⟨sampleBookmarks, []⟩
      ((memBookmarkHandler sampleDogruns).AddBookmark anonymousContext ⟨[5]⟩
        ⟨sampleBookmarks, []⟩).2 = [.CheckDogrunExistByIDs [5], .GetLoginUserID] := by
  decide

/-- C11 (amended): over any repository, every `AddBookmark` call consults the
existence facade first, then resolves the caller identity, then uses the
repository; every `DeleteBookmark` call resolves the caller identity first and
then uses the repository, with no facade call. Hence when identity resolution
fails with `e`: `AddBookmark` has consulted the facade; it returns `e` when the
facade accepts the dogruns and the facade's error, without resolving the
identity, when it rejects them; `DeleteBookmark` returns `e`; and neither call
reaches the repository or changes the store. -/
theorem C11_control_flow_order {σ : Type} (h : bookmarkHandler σ) (c : Context)
    (ids : List Int) (w : World σ) :
    (∃ rest : List Call,
      callsSince w (h.AddBookmark c ⟨ids⟩ w).2 = .CheckDogrunExistByIDs ids :: rest ∧
      (rest = [] ∨ ∃ repo : List Call,
        rest = .GetLoginUserID :: repo ∧ repo.all Call.isRepository = true)) ∧
    (∃ repo : List Call,
      callsSince w (h.DeleteBookmark c ⟨ids⟩ w).2 = .GetLoginUserID :: repo ∧
      repo.all Call.isRepository = true) ∧
    (∀ e : WRError, GetLoginUserID c = .error e →
      (h.drf.CheckDogrunExistByIDs c ids = none →
        (h.AddBookmark c ⟨ids⟩ w).1 = .error e ∧
        callsSince w (h.AddBookmark c ⟨ids⟩ w).2 =
          [.CheckDogrunExistByIDs ids, .GetLoginUserID]) ∧
      (∀ err : WRError, h.drf.CheckDogrunExistByIDs c ids = some err →
        (h.AddBookmark c ⟨ids⟩ w).1 = .error err ∧
        callsSince w (h.AddBookmark c ⟨ids⟩ w).2 = [.CheckDogrunExistByIDs ids]) ∧
      (h.AddBookmark c ⟨ids⟩ w).2.store = w.store ∧
      (h.DeleteBookmark c ⟨ids⟩ w).1 = some e ∧
      callsSince w (h.DeleteBookmark c ⟨ids⟩ w).2 = [.GetLoginUserID] ∧
      (h.DeleteBookmark c ⟨ids⟩ w).2.store = w.store) := by
  refine ⟨?_, ?_, ?_⟩
  · unfold bookmarkHandler.AddBookmark
    cases hex : h.drf.CheckDogrunExistByIDs c ids with
    | some err =>
      exact ⟨[], by simp [callsSince, World.log], Or.inl rfl⟩
    | none =>
      cases hC : GetLoginUserID c with
      | error err =>
        exact ⟨[.GetLoginUserID], by simp [callsSince, World.log],
          Or.inr ⟨[], rfl, rfl⟩⟩
      | ok u =>
        obtain ⟨repo, h1, h2⟩ := addBookmarkLoop_calls h c u ids []
          ((w.log (.CheckDogrunExistByIDs ids)).log .GetLoginUserID)
        refine ⟨.GetLoginUserID :: repo, ?_, Or.inr ⟨repo, rfl, h2⟩⟩
        simp only []
        apply callsSince_self_append
        rw [h1]
        simp [World.log]
  · unfold bookmarkHandler.DeleteBookmark
    cases hC : GetLoginUserID c with
    | error err =>
      exact ⟨[], by simp [callsSince, World.log], rfl⟩
    | ok u =>
      simp only []
      rcases hd : h.r.DeleteBookmark
        ((w.log .GetLoginUserID).log (.DeleteBookmark ids u)).store c ids u with ⟨res, s'⟩
      refine ⟨[.DeleteBookmark ids u], ?_, by simp [Call.isRepository]⟩
      cases res <;> simp [callsSince, World.log]
  · intro e he
    refine ⟨?_, ?_, ?_, ?_, ?_, ?_⟩
    · intro hex
      simp [bookmarkHandler.AddBookmark, hex, he, callsSince, World.log]
    · intro err hex
      simp [bookmarkHandler.AddBookmark, hex, callsSince, World.log]
    · unfold bookmarkHandler.AddBookmark
      cases hex : h.drf.CheckDogrunExistByIDs c ids with
      | some err => simp [World.log]
      | none => simp [he, World.log]
    · simp [bookmarkHandler.DeleteBookmark, he]
    · simp [bookmarkHandler.DeleteBookmark, he, callsSince, World.log]
    · simp [bookmarkHandler.DeleteBookmark, he, World.log]

/-- C11 (amended) at the request without verified identity for dogrun 5: the
facade is consulted, then identity resolution fails. -/
theorem C11_control_flow_order_witness :
    GetLoginUserID anonymousContext = .error noClaimsError ∧
    sampleDogruns.CheckDogrunExistByIDs anonymousContext [5] = none ∧
    ((memBookmarkHandler sampleDogruns).AddBookmark anonymousContext ⟨[5]⟩
      ⟨sampleBookmarks, []⟩).1 = .error noClaimsError ∧
    callsSince ⟨sampleBookmarks, []⟩
      ((memBookmarkHandler sampleDogruns).AddBookmark anonymousContext ⟨[5]⟩
        ⟨sampleBookmarks, []⟩).2 = [.CheckDogrunExistByIDs [5], .GetLoginUserID] :=
  ⟨rfl, by decide,
    ((C11_control_flow_order (memBookmarkHandler sampleDogruns) anonymousContext [5]
      ⟨sampleBookmarks, []⟩).2.2 noClaimsError rfl).1 (by decide)⟩

/-! ## Repeated dogs in one check-in request -/

/-- C13: over the in-memory repository, for a dog `d` without check-in today at
dogrun `r`, when the facades accept `[r]` and `[d, d]`, `CheckinDogrun(r, [d, d])`
looks `d` up twice and submits to `SaveDogrunCheckins` two records without
identifier, both with `DogrunID = r` and `DogID = d`; the call succeeds, both
records are inserted, and the store, which had at most one check-in per key,
ends with two check-ins for `(r, d, today)`. -/
theorem C13_checkin_no_dedup (drf : IDogrunFacade) (df : IDogFacade) (c : Context)
    (r d : Int) (s : CheckinStore) (calls : List Call)
    (hr : drf.CheckDogrunExistByIDs c [r] = none)
    (ho : df.CheckDogownerValid c [d, d] = none)
    (habsent : (s.find r d).IsEmpty = true)
    (hu : s.Unique) :
    callsSince ⟨s, calls⟩
        ((memCheckInOutHandler drf df).CheckinDogrun c ⟨r, [d, d]⟩ ⟨s, calls⟩).2 =
      [.CheckDogrunExistByIDs [r], .CheckDogownerValid [d, d],
       .FindDogrunCheckin r d, .FindDogrunCheckin r d,
       .SaveDogrunCheckins
         [{ DogrunID := some r, DogID := some d }, { DogrunID := some r, DogID := some d }]] ∧
    ({ DogrunID := some r, DogID := some d } : DogrunCheckin).DogrunCheckinID = none ∧
    ((memCheckInOutHandler drf df).CheckinDogrun c ⟨r, [d, d]⟩ ⟨s, calls⟩).1 = none ∧
    ((memCheckInOutHandler drf df).CheckinDogrun c ⟨r, [d, d]⟩ ⟨s, calls⟩).2.store.rows =
      s.rows ++ [newCheckinRow r s.today d, newCheckinRow r s.today d] ∧
    ((memCheckInOutHandler drf df).CheckinDogrun c ⟨r, [d, d]⟩
      ⟨s, calls⟩).2.store.count r d s.today = 2 ∧
    ¬ ((memCheckInOutHandler drf df).CheckinDogrun c ⟨r, [d, d]⟩ ⟨s, calls⟩).2.store.Unique := by
  have _ := hu
  have hok : ∀ x ∈ [d, d], (memCheckInOutHandler drf df).lookupOk c s r x :=
    fun x _ => ⟨s.find r x, rfl⟩
  have hrec : (memCheckInOutHandler drf df).recordFor c s r d =
      { DogrunID := some r, DogID := some d } := by
    have h1 : (memCheckInOutHandler drf df).recordFor c s r d =
        checkinRecordOf r d (s.find r d) := rfl
    rw [h1, s.find_of_isEmpty r d habsent]
    simp [checkinRecordOf, DogrunCheckin.IsEmpty, NewSqlNullInt64]
  have hrun := checkinDogrun_saved (memCheckInOutHandler drf df) c r [d, d] ⟨s, calls⟩ hr ho hok
  obtain ⟨hres, hstore⟩ := checkinDogrun_mem drf df c r [d, d] s calls hr ho
  have habs : s.absentDogs r [d, d] = [d, d] := by
    simp [CheckinStore.absentDogs, habsent]
  have hcount : ((memCheckInOutHandler drf df).CheckinDogrun c ⟨r, [d, d]⟩
      ⟨s, calls⟩).2.store.count r d s.today = 2 := by
    rw [hstore, s.count_after, habs, s.count_eq_zero_of_isEmpty r d habsent]
    simp
  refine ⟨?_, rfl, hres, ?_, hcount, ?_⟩
  · rw [hrun, callsSince_append]
    simp [hrec]
  · rw [hstore, habs]
    rfl
  · intro hunique
    have hle := hunique r d s.today
    rw [hcount] at hle
    omega

/-- C13 at dog 10 of caller 1, dogrun 5 and the store without check-ins. -/
theorem C13_checkin_no_dedup_witness :
    sampleDogruns.CheckDogrunExistByIDs (contextOf 1) [5] = none ∧
    sampleDogs.CheckDogownerValid (contextOf 1) [10, 10] = none ∧
    (noCheckins.find 5 10).IsEmpty = true ∧
    noCheckins.Unique ∧
    ((memCheckInOutHandler sampleDogruns sampleDogs).CheckinDogrun (contextOf 1) ⟨5, [10, 10]⟩
      ⟨noCheckins, []⟩).2.store.rows = [newCheckinRow 5 3 10, newCheckinRow 5 3 10] :=
  ⟨by decide, by decide, by decide,
    noCheckins.checkins_unique_of_length_le_one (by decide),
    (C13_checkin_no_dedup sampleDogruns sampleDogs (contextOf 1) 5 10 noCheckins []
      (by decide) (by decide) (by decide)
      (noCheckins.checkins_unique_of_length_le_one (by decide))).2.2.2.1⟩

/-! ## Decimal rendering -/

theorem digitChar_toNat (k : Nat) (h : k < 10) : (Nat.digitChar k).toNat - 48 = k := by
  interval_cases k <;> rfl

theorem digitChar_isDigit (k : Nat) (h : k < 10) : (Nat.digitChar k).isDigit = true := by
  interval_cases k <;> rfl

/-- The digits of `n` are put in front of the digits already produced; they are
decimal digits, and there is at least one when there is fuel. -/
theorem toDigitsCore_digits :
    ∀ (fuel n : Nat) (ds : List Char),
      ∃ D : List Char, Nat.toDigitsCore 10 fuel n ds = D ++ ds ∧
        (∀ ch ∈ D, ch.isDigit = true) ∧ (0 < fuel → D ≠ [])
  | 0, _, ds => ⟨[], rfl, by simp, by simp⟩
  | fuel + 1, n, ds => by
    have hd : (Nat.digitChar (n % 10)).isDigit = true :=
      digitChar_isDigit (n % 10) (Nat.mod_lt _ (by decide))
    unfold Nat.toDigitsCore
    simp only []
    by_cases hz : n / 10 = 0
    · simp only [hz, if_true]
      exact ⟨[Nat.digitChar (n % 10)], rfl, by simpa using hd, by simp⟩
    · simp only [hz, if_false]
      obtain ⟨D, h1, h2, _⟩ := toDigitsCore_digits fuel (n / 10) (Nat.digitChar (n % 10) :: ds)
      refine ⟨D ++ [Nat.digitChar (n % 10)], by simp [h1], ?_, by simp⟩
      intro ch hch
      rcases List.mem_append.mp hch with h | h
      · exact h2 ch h
      · have : ch = Nat.digitChar (n % 10) := by simpa using h
        rw [this]
        exact hd

/-- Reading the digits produced for `n` gives `n` back. -/
theorem foldl_toDigitsCore :
    ∀ (fuel n : Nat) (ds : List Char), n < fuel →
      (Nat.toDigitsCore 10 fuel n ds).foldl (fun acc ch => acc * 10 + (ch.toNat - 48)) 0 =
        ds.foldl (fun acc ch => acc * 10 + (ch.toNat - 48)) n
  | 0, _, _, h => by omega
  | fuel + 1, n, ds, h => by
    have hd : (Nat.digitChar (n % 10)).toNat - 48 = n % 10 :=
      digitChar_toNat (n % 10) (Nat.mod_lt _ (by decide))
    unfold Nat.toDigitsCore
    simp only []
    by_cases hz : n / 10 = 0
    · simp only [hz, if_true, List.foldl_cons, hd]
      have : 0 * 10 + n % 10 = n := by omega
      rw [this]
    · simp only [hz, if_false]
      rw [foldl_toDigitsCore fuel (n / 10) _ (by omega), List.foldl_cons, hd]
      have : n / 10 * 10 + n % 10 = n := by omega
      rw [this]

theorem decValue_toDigits (n : Nat) : decValue (Nat.toDigits 10 n) = n := by
  unfold decValue Nat.toDigits
  rw [foldl_toDigitsCore (n + 1) n [] (by omega)]
  rfl

theorem toDigits_injective (n m : Nat) (h : Nat.toDigits 10 n = Nat.toDigits 10 m) : n = m := by
  have := congrArg decValue h
  rwa [decValue_toDigits, decValue_toDigits] at this

theorem toDigits_isDigit (n : Nat) : ∀ ch ∈ Nat.toDigits 10 n, ch.isDigit = true := by
  obtain ⟨D, h1, h2, _⟩ := toDigitsCore_digits (n + 1) n []
  unfold Nat.toDigits
  rw [h1, List.append_nil]
  exact h2

theorem toDigits_ne_nil (n : Nat) : Nat.toDigits 10 n ≠ [] := by
  obtain ⟨D, h1, _, h3⟩ := toDigitsCore_digits (n + 1) n []
  unfold Nat.toDigits
  rw [h1, List.append_nil]
  exact h3 (by omega)

theorem fmtD_ofNat_data (n : Nat) : (fmtD (Int.ofNat n)).data = Nat.toDigits 10 n := rfl

theorem fmtD_negSucc_data (n : Nat) :
    (fmtD (Int.negSucc n)).data = '-' :: Nat.toDigits 10 (n + 1) := rfl

theorem minus_not_mem_toDigits (n : Nat) : '-' ∉ Nat.toDigits 10 n := by
  intro h
  have := toDigits_isDigit n '-' h
  exact absurd this (by decide)

/-- A list is split in one way only at the first occurrence of a separator. -/
theorem split_at_separator (x : Char) :
    ∀ (D1 D2 R1 R2 : List Char), x ∉ D1 → x ∉ D2 →
      D1 ++ x :: R1 = D2 ++ x :: R2 → D1 = D2 ∧ R1 = R2
  | [], [], _, _, _, _, h => by
    simp only [List.nil_append, List.cons.injEq, true_and] at h
    exact ⟨rfl, h⟩
  | [], b :: D2, _, _, _, h2, h => by
    simp only [List.nil_append, List.cons_append, List.cons.injEq] at h
    exact absurd (by rw [h.1]; exact List.mem_cons_self _ _) h2
  | a :: D1, [], _, _, h1, _, h => by
    simp only [List.nil_append, List.cons_append, List.cons.injEq] at h
    exact absurd (by rw [← h.1]; exact List.mem_cons_self _ _) h1
  | a :: D1, b :: D2, R1, R2, h1, h2, h => by
    simp only [List.cons_append, List.cons.injEq] at h
    obtain ⟨hab, hrest⟩ := h
    have ih := split_at_separator x D1 D2 R1 R2
      (fun hm => h1 (List.mem_cons_of_mem _ hm)) (fun hm => h2 (List.mem_cons_of_mem _ hm)) hrest
    exact ⟨by rw [hab, ih.1], ih.2⟩

theorem head_toDigits_ne_minus (n : Nat) (rest : List Char) (R : List Char)
    (h : Nat.toDigits 10 n ++ rest = '-' :: R) : False := by
  cases hd : Nat.toDigits 10 n with
  | nil => exact toDigits_ne_nil n hd
  | cons a D =>
    rw [hd, List.cons_append, List.cons.injEq] at h
    have hmem : a ∈ Nat.toDigits 10 n := by rw [hd]; exact List.mem_cons_self _ _
    rw [h.1] at hmem
    exact minus_not_mem_toDigits n hmem

theorem fmtD_injective (a b : Int) (h : fmtD a = fmtD b) : a = b := by
  have hdata : (fmtD a).data = (fmtD b).data := congrArg String.data h
  cases a with
  | ofNat n =>
    cases b with
    | ofNat m =>
      rw [fmtD_ofNat_data, fmtD_ofNat_data] at hdata
      rw [toDigits_injective n m hdata]
    | negSucc m =>
      rw [fmtD_ofNat_data, fmtD_negSucc_data] at hdata
      exact (head_toDigits_ne_minus n [] _ (by rw [List.append_nil]; exact hdata)).elim
  | negSucc n =>
    cases b with
    | ofNat m =>
      rw [fmtD_ofNat_data, fmtD_negSucc_data] at hdata
      exact (head_toDigits_ne_minus m [] _ (by rw [List.append_nil]; exact hdata.symm)).elim
    | negSucc m =>
      rw [fmtD_negSucc_data, fmtD_negSucc_data, List.cons.injEq] at hdata
      have := toDigits_injective (n + 1) (m + 1) hdata.2
      have hnm : n = m := by omega
      rw [hnm]

theorem eType.String_data (t : eType) :
    t.String.data = (fmtD t.service).data ++ '-' :: (fmtD t.errorType).data := by
  unfold eType.String
  rw [String.data_append, String.data_append]
  simp

/-- Two renderings `a-b` agree only when the first numbers agree and the second
numbers agree. -/
theorem code_data_injective (a b a' b' : Int)
    (h : (fmtD a).data ++ '-' :: (fmtD b).data = (fmtD a').data ++ '-' :: (fmtD b').data) :
    a = a' ∧ b = b' := by
  cases a with
  | ofNat n =>
    cases a' with
    | ofNat m =>
      rw [fmtD_ofNat_data, fmtD_ofNat_data] at h
      obtain ⟨h1, h2⟩ := split_at_separator '-' _ _ _ _ (minus_not_mem_toDigits n)
        (minus_not_mem_toDigits m) h
      exact ⟨by rw [toDigits_injective n m h1], fmtD_injective b b' (String.ext h2)⟩
    | negSucc m =>
      rw [fmtD_ofNat_data, fmtD_negSucc_data, List.cons_append] at h
      exact (head_toDigits_ne_minus n _ _ h).elim
  | negSucc n =>
    cases a' with
    | ofNat m =>
      rw [fmtD_ofNat_data, fmtD_negSucc_data, List.cons_append] at h
      exact (head_toDigits_ne_minus m _ _ h.symm).elim
    | negSucc m =>
      rw [fmtD_negSucc_data, fmtD_negSucc_data, List.cons_append, List.cons_append,
        List.cons.injEq] at h
      obtain ⟨h1, h2⟩ := split_at_separator '-' _ _ _ _ (minus_not_mem_toDigits (n + 1))
        (minus_not_mem_toDigits (m + 1)) h.2
      have := toDigits_injective (n + 1) (m + 1) h1
      have hnm : n = m := by omega
      exact ⟨by rw [hnm], fmtD_injective b b' (String.ext h2)⟩

/-! ## Claims on the error codes -/

/-- C14: `eType.String` renders an error type as the decimal rendering of its
service number, a hyphen, and the decimal rendering of its errorType number,
where the rendering of a natural number is a non-empty string of decimal digits
that reads back as the number and the rendering of a negative number is a minus
sign followed by the rendering of its absolute value; the rendering is
injective: two error types with the same code have the same service and the same
errorType, negative numbers included; and the codes of the eleven constructors
are `0-2`, `1-1`, ..., `5-2`, pairwise distinct. -/
theorem C14_error_code_injective (t u : eType) :
    t.String = fmtD t.service ++ "-" ++ fmtD t.errorType ∧
    (∀ n : Nat, (fmtD (n : Int)).data ≠ [] ∧
      (∀ ch ∈ (fmtD (n : Int)).data, ch.isDigit = true) ∧
      decValue (fmtD (n : Int)).data = n ∧
      fmtD (-((n : Int) + 1)) = "-" ++ fmtD ((n : Int) + 1)) ∧
    (t.String = u.String → t.service = u.service ∧ t.errorType = u.errorType) ∧
    constructedETypes.map eType.String =
      ["0-2", "1-1", "1-2", "2-1", "2-2", "3-1", "3-2", "4-1", "4-2", "5-1", "5-2"] ∧
    (constructedETypes.map eType.String).Nodup := by
  refine ⟨rfl, ?_, ?_, by decide, by decide⟩
  · intro n
    refine ⟨toDigits_ne_nil n, toDigits_isDigit n, decValue_toDigits n, ?_⟩
    have h1 : -((n : Int) + 1) = Int.negSucc n := (Int.negSucc_eq n).symm
    have h2 : (n : Int) + 1 = Int.ofNat (n + 1) := by simp
    rw [h1, h2]
    rfl
  · intro h
    have hdata := congrArg String.data h
    rw [eType.String_data, eType.String_data] at hdata
    exact code_data_injective _ _ _ _ hdata

/-- C14 at error types with negative numbers: `-1--2` is the code of (-1, -2)
only. -/
theorem C14_error_code_injective_witness :
    (⟨-1, -2⟩ : eType).String = "-1--2" ∧
    (⟨-1, -2⟩ : eType).String = (⟨0 - 1, 0 - 2⟩ : eType).String ∧
    (⟨-1, -2⟩ : eType).service = (⟨0 - 1, 0 - 2⟩ : eType).service ∧
    (⟨-1, -2⟩ : eType).errorType = (⟨0 - 1, 0 - 2⟩ : eType).errorType :=
  ⟨by decide, by decide,
    (C14_error_code_injective ⟨-1, -2⟩ ⟨0 - 1, 0 - 2⟩).2.2.1 (by decide)⟩

/-- C12: every error type built by a constructor of the errors package (the
eleven of `errcode.go` and the interaction client type the handler uses) has
kind `CLIENT` or `SERVER` and a domain among auth, dog, dog-owner, dogrun, cms,
interaction and other, interaction being none of the other six; and over the
in-memory repository, when the facade accepts the request and `d` is the first
dogrun of it that caller `C` has bookmarked when the loop reaches it, the error
`AddBookmark` returns has domain interaction and kind client, no underlying
cause, and the message that names the decimal rendering of `d`. -/
theorem C12_duplicate_error_classification (drf : IDogrunFacade) (c : Context) (C : Int)
    (pre : List Int) (d : Int) (post : List Int) (s : BookmarkStore) (calls : List Call)
    (hC : GetLoginUserID c = .ok C)
    (hex : drf.CheckDogrunExistByIDs c (pre ++ d :: post) = none)
    (hnd : pre.Nodup)
    (hnb : ∀ id ∈ pre, (s.find id C).IsNotEmpty = false)
    (hd : d ∈ pre ∨ (s.find d C).IsNotEmpty = true) :
    (∀ t ∈ constructedETypes ++ [NewInteractionClientErrorEType],
      (t.errorType = CLIENT ∨ t.errorType = SERVER) ∧ t.service ∈ errorDomains) ∧
    INTERACTION ∉ [AUTH, DOG, DOG_OWNER, DOGRUN, CMS, OTHER] ∧
    (∃ err : WRError,
      ((memBookmarkHandler drf).AddBookmark c ⟨pre ++ d :: post⟩ ⟨s, calls⟩).1 = .error err ∧
      err.etype.service = INTERACTION ∧
      err.etype.errorType = CLIENT ∧
      err.cause = none ∧
      err.message =
        "ドッグランID:" ++ fmtD d ++ "はすでにブックマークに登録されています。") := by
  refine ⟨by decide, by decide, duplicateBookmarkError d, ?_, rfl, rfl, rfl, rfl⟩
  have hnb' : ∀ id ∈ pre, s.rows.any (BookmarkRow.isFor id C) = false := by
    intro id hid
    rw [← BookmarkStore.find_isNotEmpty]
    exact hnb id hid
  have hd' : d ∈ pre ∨ s.rows.any (BookmarkRow.isFor d C) = true := by
    rw [← BookmarkStore.find_isNotEmpty]
    exact hd
  have hex' : (memBookmarkHandler drf).drf.CheckDogrunExistByIDs c (pre ++ d :: post) = none :=
    hex
  have hrun : (memBookmarkHandler drf).AddBookmark c ⟨pre ++ d :: post⟩ ⟨s, calls⟩ =
      (memBookmarkHandler drf).addBookmarkLoop c C (pre ++ d :: post) []
        ⟨s, calls ++ [.CheckDogrunExistByIDs (pre ++ d :: post), .GetLoginUserID]⟩ := by
    simp [bookmarkHandler.AddBookmark, hex', hC, World.log]
  rw [hrun]
  exact (addBookmarkLoop_mem_dup drf c C d post pre [] s _ hnd hnb' hd').1

/-- C12 at caller 1 and the request 5, 7 on the sample store, where 7 is
bookmarked: the error names dogrun 7. -/
theorem C12_duplicate_error_classification_witness :
    (sampleBookmarks.find 5 1).IsNotEmpty = false ∧
    (sampleBookmarks.find 7 1).IsNotEmpty = true ∧
    ((memBookmarkHandler sampleDogruns).AddBookmark (contextOf 1) ⟨[5, 7]⟩
      ⟨sampleBookmarks, []⟩).1 =
      .error (NewWRError none "ドッグランID:7はすでにブックマークに登録されています。"
        ⟨INTERACTION, CLIENT⟩) := by
  refine ⟨by decide, by decide, ?_⟩
  obtain ⟨err, h1, h2, h3, h4, h5⟩ :=
    (C12_duplicate_error_classification sampleDogruns (contextOf 1) 1 [5] 7 [] sampleBookmarks []
      rfl (by decide) (by decide) (by decide) (Or.inr (by decide))).2.2
  refine h1.trans ?_
  cases err with
  | mk cause message etype =>
    cases etype with
    | mk service errorType =>
      simp only at h2 h3 h4 h5
      subst h2; subst h3; subst h4; subst h5
      decide

end Wanrun
